import Mathlib

/-!
# Kasperbrett: sample keys, the Bolt sample store, reporters and the scheduler actor

A shallow embedding of `kasperbrett.go`.

* A Go `string` / `[]byte` is a list of bytes (`GoString`); `str` turns a literal into its
  UTF-8 bytes.
* A Go `error` value is `Option GoError` (`none` is `nil`), an error being known by the text of
  its `Error()` method.
* A `time.Time` is an instant (nanoseconds since the Unix epoch) with a zone offset.
* A panic is the `Except.error` result of a function that returns `Except Panic _`.
* Each actor goroutine is a step function on the state owned by that goroutine; what it writes
  on channels or calls on collaborators is returned next to the new state.
-/

namespace Kasperbrett

/-! ## Go strings and byte order -/

/-- A Go `string` or `[]byte`: a sequence of bytes. -/
abbrev GoString := List Nat

/-- The text of a Go error (`err.Error()`). A value of interface type `error` is an
`Option GoError`, `none` standing for `nil`. -/
abbrev GoError := GoString

/-- The UTF-8 bytes of a string literal. -/
def str (s : String) : GoString :=
  (s.data.flatMap String.utf8EncodeChar).map UInt8.toNat

/-- Go `bytes.Compare`: lexicographic comparison, `-1`, `0` or `1`. -/
def bytesCompare : GoString → GoString → Int
  | [], [] => 0
  | [], _ :: _ => -1
  | _ :: _, [] => 1
  | a :: as, b :: bs =>
    if a < b then -1 else if b < a then 1 else bytesCompare as bs

/-! ## time.Time -/

/-- A `time.Time`: the instant as nanoseconds since 1970-01-01T00:00:00Z and the offset of its
location in seconds east of UTC. -/
structure Time where
  unixNano : Int
  offset : Int
  deriving DecidableEq, Repr

namespace Time

/-- Go `Time.UTC`: the same instant with the location set to UTC. -/
def UTC (t : Time) : Time := { t with offset := 0 }

/-- Go `Time.Equal`: same instant, whatever the locations. -/
def Equal (t u : Time) : Bool := decide (t.unixNano = u.unixNano)

/-- Go `Time.After`. -/
def After (t u : Time) : Bool := decide (u.unixNano < t.unixNano)

/-- Go `Time.Before`. -/
def Before (t u : Time) : Bool := decide (t.unixNano < u.unixNano)

/-- Seconds since the Unix epoch (rounded down). -/
def unixSec (t : Time) : Int := t.unixNano / 1000000000

/-- Go `Time.Nanosecond`: the nanosecond within the second, in `[0, 999999999]`. -/
def Nanosecond (t : Time) : Nat := (t.unixNano % 1000000000).toNat

/-- Seconds since the epoch of the wall clock shown in the location of `t`. -/
def wallSec (t : Time) : Int := t.unixSec + t.offset

/-- Days since 1970-01-01 of the calendar date shown by `t`. -/
def wallDays (t : Time) : Int := t.wallSec / 86400

/-- Second of the day shown by `t`, in `[0, 86399]`. -/
def secOfDay (t : Time) : Nat := (t.wallSec % 86400).toNat

/-- The proleptic Gregorian calendar date `(year, month, day)` of a day number counted from
1970-01-01, as Go `Time.Date` reports it. Works on 400-year eras starting on 1 March. -/
def civilFromDays (days : Int) : Int × Nat × Nat :=
  let z := days + 719468
  let era := z / 146097
  let doe := (z % 146097).toNat
  let yoe := (doe - doe / 1460 + doe / 36524 - doe / 146096) / 365
  let doy := doe - (365 * yoe + yoe / 4 - yoe / 100)
  let mp := (5 * doy + 2) / 153
  let d := doy - (153 * mp + 2) / 5 + 1
  let m := if mp < 10 then mp + 3 else mp - 9
  let y : Int := (yoe : Int) + era * 400
  (if m ≤ 2 then y + 1 else y, m, d)

/-- Go `Time.Year`. -/
def Year (t : Time) : Int := (civilFromDays t.wallDays).1

/-- Go `Time.Month`, in `[1, 12]`. -/
def Month (t : Time) : Nat := (civilFromDays t.wallDays).2.1

/-- Go `Time.Day`, in `[1, 31]`. -/
def Day (t : Time) : Nat := (civilFromDays t.wallDays).2.2

/-- Go `Time.Hour`, in `[0, 23]`. -/
def Hour (t : Time) : Nat := t.secOfDay / 3600

/-- Go `Time.Minute`, in `[0, 59]`. -/
def Minute (t : Time) : Nat := t.secOfDay % 3600 / 60

/-- Go `Time.Second`, in `[0, 59]`. -/
def Second (t : Time) : Nat := t.secOfDay % 60

end Time

/-! ## Formatting with the layout `time.RFC3339Nano` -/

/-- The ASCII digit of `d % 10`. -/
def digit (d : Nat) : Nat := 48 + d % 10

/-- The last `width` decimal digits of `n`, zero padded on the left. -/
def fixedDigits : Nat → Nat → GoString
  | 0, _ => []
  | width + 1, n => fixedDigits width (n / 10) ++ [digit n]

/-- The decimal digits of `n` without padding (`fuel` bounds the number of digits): the
digits before the last one, when there are any, and then the last one. -/
def natDigits : Nat → Nat → GoString
  | 0, _ => []
  | fuel + 1, n => (if n < 10 then [] else natDigits fuel (n / 10)) ++ [digit n]

/-- Go `appendInt(b, x, width)` of package time: decimal with a leading `-` for a negative
number, zero padded to at least `width` digits. -/
def appendInt (x : Int) (width : Nat) : GoString :=
  let u := x.natAbs
  let ds := natDigits (u + 1) u
  (if x < 0 then [45] else []) ++ List.replicate (width - ds.length) 48 ++ ds

/-- Drop the trailing `0` digits of a digit string given in reverse. -/
def dropZerosRev : GoString → GoString
  | [] => []
  | c :: cs => if c = 48 then dropZerosRev cs else c :: cs

/-- Go `formatNano(b, nanosec, 9, true)`, the layout element `.999999999`: a `.` and the nine
digits of the nanosecond with trailing zeros removed; nothing at all when the nanosecond is 0. -/
def formatNano (nanosec : Nat) : GoString :=
  let trimmed := (dropZerosRev (fixedDigits 9 nanosec).reverse).reverse
  if trimmed = [] then [] else 46 :: trimmed

/-- The layout element `Z07:00`: `Z` in UTC, otherwise the signed offset `±hh:mm`, the offset
being cut to whole minutes towards zero. -/
def formatZone (offset : Int) : GoString :=
  if offset = 0 then [90]
  else
    let zone := offset.tdiv 60
    let a := zone.natAbs
    (if zone < 0 then [45] else [43]) ++ fixedDigits 2 (a / 60) ++ [58] ++ fixedDigits 2 (a % 60)

/-- Go `t.Format(time.RFC3339Nano)`, layout `2006-01-02T15:04:05.999999999Z07:00`. -/
def Time.FormatRFC3339Nano (t : Time) : GoString :=
  appendInt t.Year 4 ++ [45] ++ fixedDigits 2 t.Month ++ [45] ++ fixedDigits 2 t.Day ++ [84]
    ++ fixedDigits 2 t.Hour ++ [58] ++ fixedDigits 2 t.Minute ++ [58] ++ fixedDigits 2 t.Second
    ++ formatNano t.Nanosecond ++ formatZone t.offset

/-! ## Samples and their keys -/

/-- The constant `BoltSampleKeySeparator`. -/
def BoltSampleKeySeparator : GoString := str "#"

/-- Go `GenerateKey`: `fmt.Sprintf("%s%s%s", dataSourceId, keySeparator,
timestamp.UTC().Format(time.RFC3339Nano))`. -/
def GenerateKey (dataSourceId keySeparator : GoString) (timestamp : Time) : GoString :=
  dataSourceId ++ keySeparator ++ timestamp.UTC.FormatRFC3339Nano

/-- The struct `Sample`. `Err` is `none` for a nil error and `some text` for an error whose
`Error()` is `text`. -/
structure Sample where
  Value : GoString
  Timestamp : Time
  DataSourceId : GoString
  Err : Option GoError
  deriving DecidableEq, Repr

/-- Go `(*Sample).Key`. -/
def Sample.Key (this : Sample) : GoString :=
  GenerateKey this.DataSourceId BoltSampleKeySeparator this.Timestamp

/-- A Go panic: a run-time error or the message handed to `panic`. -/
inductive Panic where
  | nilDereference
  | message (text : GoString)
  deriving DecidableEq, Repr

/-- Go `NewSample`: panics on an empty `dataSourceId` and on an empty value without an error. -/
def NewSample (value : GoString) (timestamp : Time) (dataSourceId : GoString)
    (err : Option GoError) : Except Panic Sample :=
  if dataSourceId.length = 0 then
    .error (.message (str "A Sample must have a valid dataSourceId."))
  else if value.length = 0 ∧ err = none then
    .error (.message (str "A Sample must have a valid value or a specified error."))
  else
    .ok { Value := value, Timestamp := timestamp, DataSourceId := dataSourceId, Err := err }

/-- The zero `Sample` that `new(Sample)` allocates; the zero `time.Time` is
0001-01-01T00:00:00Z. -/
def Sample.zero : Sample :=
  { Value := [], Timestamp := { unixNano := -62135596800000000000, offset := 0 },
    DataSourceId := [], Err := none }

/-! ## encoding/gob

The gob stream held by a `bytes.Buffer` is kept as the sequence of values that were encoded
into it: `Encode` appends one value, `Decode` takes the next one and fails when the stream is
exhausted or the value is of another type than the variable decoded into. A `time.Time` goes
through gob by `Time.MarshalBinary`, which keeps its instant and zone offset and refuses some
zone offsets. -/

/-- One value of a gob stream. -/
inductive GobValue where
  | string (s : GoString)
  | time (t : Time)
  deriving DecidableEq, Repr

/-- The content of a buffer written by a `gob.Encoder`. -/
abbrev GobBytes := List GobValue

/-- Go `Time.MarshalBinary`, as far as it can fail: the zone offset is cut to whole minutes
towards zero, and the call fails when the minutes do not fit in an `int16` or are `-1`, the
value kept for UTC. A time in UTC, offset 0, is always accepted. -/
def Time.MarshalBinary (t : Time) : Except GoError Time :=
  let offsetMin := t.offset.tdiv 60
  if offsetMin < -32768 ∨ offsetMin = -1 ∨ offsetMin > 32767 then
    .error (str "Time.MarshalBinary: unexpected zone offset")
  else .ok t

/-- Go `encoder.Encode(v)` on the buffer `buff`: a string is always encoded, a `time.Time` is
encoded by its `MarshalBinary`, whose error `Encode` returns. -/
def gobEncode (buff : GobBytes) (v : GobValue) : Except GoError GobBytes :=
  match v with
  | .string s => .ok (buff ++ [.string s])
  | .time t =>
    match t.MarshalBinary with
    | .error err => .error err
    | .ok marshalled => .ok (buff ++ [.time marshalled])

/-- Go `decoder.Decode(&s)` for a string variable: the value and the rest of the stream. -/
def gobDecodeString : GobBytes → Except GoError (GoString × GobBytes)
  | [] => .error (str "EOF")
  | .string s :: rest => .ok (s, rest)
  | .time _ :: _ => .error (str "gob: decoding into local type *string, received remote type Time")

/-- Go `decoder.Decode(&t)` for a `time.Time` variable. -/
def gobDecodeTime : GobBytes → Except GoError (Time × GobBytes)
  | [] => .error (str "EOF")
  | .time t :: rest => .ok (t, rest)
  | .string _ :: _ => .error (str "gob: decoding into local type *time.Time, received remote type string")

/-- Go `(*Sample).GobEncode`. -/
def Sample.GobEncode (this : Sample) : Except GoError GobBytes := do
  let buff : GobBytes := []
  let buff ← gobEncode buff (.string this.Value)
  let buff ← gobEncode buff (.time this.Timestamp)
  let buff ← gobEncode buff (.string this.DataSourceId)
  let errStr : GoString :=
    match this.Err with
    | some e => e
    | none => []
  let buff ← gobEncode buff (.string errStr)
  return buff

/-- Go `(*Sample).GobDecode`: the receiver after the call and the returned error. The fields
decoded before a failure stay assigned. -/
def Sample.GobDecode (this : Sample) (sampleBytes : GobBytes) : Sample × Option GoError :=
  match gobDecodeString sampleBytes with
  | .error err => (this, some err)
  | .ok (value, buff) =>
    let this := { this with Value := value }
    match gobDecodeTime buff with
    | .error err => (this, some err)
    | .ok (timestamp, buff) =>
      let this := { this with Timestamp := timestamp }
      match gobDecodeString buff with
      | .error err => (this, some err)
      | .ok (dataSourceId, buff) =>
        let this := { this with DataSourceId := dataSourceId }
        match gobDecodeString buff with
        | .error err => (this, some err)
        | .ok (s, _) =>
          if s.length > 0 then ({ this with Err := some s }, none)
          else ({ this with Err := none }, none)

/-! ## The Bolt bucket and BoltDataStore -/

/-- The bucket `KasperbrettSamples`: its key/value pairs in ascending byte order of the keys,
the order a Bolt cursor walks them. -/
abbrev Bucket := List (GoString × GobBytes)

/-- Put the pair at its place in the key order, replacing the value of an equal key. -/
def Bucket.insert (key : GoString) (value : GobBytes) : Bucket → Bucket
  | [] => [(key, value)]
  | (k, v) :: rest =>
    if bytesCompare key k < 0 then (key, value) :: (k, v) :: rest
    else if bytesCompare key k = 0 then (key, value) :: rest
    else (k, v) :: Bucket.insert key value rest

/-- The constant `bolt.MaxKeySize`. -/
def MaxKeySize : Nat := 32768

/-- Bolt `Bucket.Put` in a writable transaction: refuses an empty key and a key longer than
`MaxKeySize`, otherwise stores the pair. -/
def Bucket.Put (b : Bucket) (key : GoString) (value : GobBytes) : Bucket × Option GoError :=
  if key.length = 0 then (b, some (str "key required"))
  else if key.length > MaxKeySize then (b, some (str "key too large"))
  else (Bucket.insert key value b, none)

/-- Bolt `Cursor.Seek` on a bucket in key order: the pairs from the first key that is
`>= seek` on; `Cursor.Next` then moves to the tail. -/
def Bucket.Seek (b : Bucket) (seek : GoString) : Bucket :=
  b.dropWhile (fun kv => decide (bytesCompare kv.1 seek < 0))

/-- What the loop of `PersistSamples` did with one sample. -/
inductive PersistAttempt (V : Type) where
  | encodeFailed (sample : Sample) (err : GoError)
  | put (sample : Sample) (key : GoString) (value : V) (err : Option GoError)

/-- The error of an attempt, if it had one. -/
def PersistAttempt.err {V : Type} : PersistAttempt V → Option GoError
  | .encodeFailed _ err => some err
  | .put _ _ _ err => err

/-- The sample an attempt was made for. -/
def PersistAttempt.sample {V : Type} : PersistAttempt V → Sample
  | .encodeFailed s _ => s
  | .put s _ _ _ => s

/-- The `for _, sample := range samples` loop of `PersistSamples`, over any encoder and any
`Put`: the bucket, `overallError` and the attempts made so far are threaded through. -/
def persistLoop {B V : Type} (encode : Sample → Except GoError V)
    (put : B → GoString → V → B × Option GoError) :
    List Sample → B → Option GoError → List (PersistAttempt V) →
      B × Option GoError × List (PersistAttempt V)
  | [], b, overallError, done => (b, overallError, done)
  | sample :: rest, b, overallError, done =>
    match encode sample with
    | .error err =>
      let overallError := if overallError = none then some err else overallError
      persistLoop encode put rest b overallError (done ++ [.encodeFailed sample err])
    | .ok sampleBytes =>
      let r := put b sample.Key sampleBytes
      let overallError := if r.2 ≠ none ∧ overallError = none then r.2 else overallError
      persistLoop encode put rest r.1 overallError (done ++ [.put sample sample.Key sampleBytes r.2])

/-- The function handed to `db.Update` by `PersistSamples`: the bucket as the loop leaves it,
the returned `overallError`, and the attempts in the order they were made. -/
def persistTx {B V : Type} (encode : Sample → Except GoError V)
    (put : B → GoString → V → B × Option GoError) (b : B) (samples : List Sample) :
    B × Option GoError × List (PersistAttempt V) :=
  persistLoop encode put samples b none []

/-- An opened `BoltDataStore`, given by the content of its samples bucket. -/
structure BoltDataStore where
  bucket : Bucket
  deriving DecidableEq, Repr

/-- Go `(*BoltDataStore).PersistSamples`: `db.Update` commits what the function wrote when it
returns nil and rolls the transaction back when it returns an error. -/
def BoltDataStore.PersistSamples (ds : BoltDataStore) (samples : List Sample) :
    BoltDataStore × Option GoError :=
  let r := persistTx Sample.GobEncode Bucket.Put ds.bucket samples
  match r.2.1 with
  | none => ({ bucket := r.1 }, none)
  | some err => (ds, some err)

/-- The cursor loop of `GetSamples`, started on the pairs from the seek position on: runs while
the key is `<= max`, appends every value that decodes and skips the others. -/
def scanLoop (max : GoString) : Bucket → List Sample → List Sample
  | [], samples => samples
  | (k, sampleBytes) :: next, samples =>
    if bytesCompare k max ≤ 0 then
      let r := Sample.GobDecode Sample.zero sampleBytes
      match r.2 with
      | some _ => scanLoop max next samples
      | none => scanLoop max next (samples ++ [r.1])
    else samples

/-- Go `(*BoltDataStore).GetSamples`; the function given to `db.View` returns nil, so the
error is nil. -/
def BoltDataStore.GetSamples (ds : BoltDataStore) (dataSourceId : GoString) (fromT toT : Time) :
    List Sample × Option GoError :=
  let min := GenerateKey dataSourceId BoltSampleKeySeparator fromT
  let max := GenerateKey dataSourceId BoltSampleKeySeparator toT
  (scanLoop max (ds.bucket.Seek min) [], none)

/-! ## Data retrieval -/

/-- What the `select` of `RetrieveAndDistribute` receives first: a sample from the data
source, or the time sent by `time.After(timeout)`. -/
inductive Received where
  | sample (sample : Sample)
  | timeout (now : Time)
  deriving DecidableEq, Repr

/-- Go `RetrieveAndDistribute` for a data source whose `Id()` is `dsId`: the samples handed to
`re.Distribute`, in call order, or the panic that ended the call. -/
def RetrieveAndDistribute (dsId : GoString) (received : Received) :
    Except Panic (List Sample) := do
  let sample ←
    match received with
    | .sample sample => pure sample
    | .timeout now => NewSample [] now dsId (some (str "Sample retrieval timed out."))
  return [sample]

/-- The fields of `UrlScraper` that `Retrieve` reads. -/
structure UrlScraper where
  dataSourceId : GoString
  url : GoString
  cssPath : GoString
  transformationScript : GoString
  deriving DecidableEq, Repr

/-- The outcomes of the collaborators of one `Retrieve` call.
* `now`: the result of `time.Now()`;
* `document`: the result of `goquery.NewDocument(url)`, either an error (the document is then
  nil) or a document, given by the text `doc.Find(cssPath).Text()` selects in it;
* `jsDeclareErr`: the error of the first `jsEngine.Run`, which declares `value`;
* `jsErr` and `jsValueString`: the error of the second `jsEngine.Run` and `jsValue.String()`
  of the value it returns. -/
structure RetrieveOutcomes where
  now : Time
  document : Except GoError GoString
  jsDeclareErr : Option GoError
  jsErr : Option GoError
  jsValueString : GoString
  deriving Repr

/-- Go `(*UrlScraper).Retrieve`: the samples sent on `sampleChan`, in order, or the panic that
ended the call. -/
def UrlScraper.Retrieve (this : UrlScraper) (o : RetrieveOutcomes) :
    Except Panic (List Sample) := do
  let mut sample : Option Sample := none
  let t := o.now
  let (doc, err) : Option GoString × Option GoError :=
    match o.document with
    | .ok text => (some text, none)
    | .error e => (none, some e)
  if err ≠ none then
    sample := some (← NewSample [] t this.dataSourceId err)
  let found ←
    match doc with
    | some text => pure text
    | none => throw Panic.nilDereference
  let mut value := found
  if value.length = 0 then
    sample := some (← NewSample [] t this.dataSourceId
      (some (str "The specified CSS path is invalid or doesn\x27t match any DOM nodes.")))
  if this.transformationScript.length > 0 then
    if o.jsDeclareErr ≠ none then
      sample := some (← NewSample [] t this.dataSourceId o.jsDeclareErr)
    if o.jsErr ≠ none then
      sample := some (← NewSample [] t this.dataSourceId o.jsErr)
    value := o.jsValueString
    if value.length = 0 then
      sample := some (← NewSample [] t this.dataSourceId
        (some (str "Couldn\x27t perform the provided JS transformation.")))
  sample := some (← NewSample value t this.dataSourceId none)
  match sample with
  | some s => return [s]
  | none => return []

/-! ## PersistentDataStoreReporter -/

/-- The methods of the interface `DataStore` that the reporter calls, over a store state `σ`. -/
structure DataStore (σ : Type) where
  PersistSamples : σ → List Sample → σ × Option GoError
  ShutDown : σ → σ × Option GoError

/-- The state owned by the goroutine of `NewPersistentDataStoreReporter`: the buffer and the
data store behind the reporter. -/
structure PersistentDataStoreReporter (σ : Type) where
  buffer : List Sample
  dataStore : σ

/-- The struct `SampleRetrievalRequest` without its response channel. -/
structure SampleRetrievalRequest where
  DataSourceId : GoString
  From : Time
  To : Time
  deriving DecidableEq, Repr

/-- What one turn of the reporter goroutine did besides changing its state: the arguments of
its `PersistSamples` calls, the errors it printed, and the slices it sent on a `ResponseChan`. -/
structure ReporterEffects where
  persistCalls : List (List Sample)
  printed : List GoError
  responses : List (List Sample)
  deriving DecidableEq, Repr

/-- The case `<-r.flushTicker.C` of the reporter goroutine. -/
def PersistentDataStoreReporter.onFlushTick {σ : Type} (ds : DataStore σ)
    (r : PersistentDataStoreReporter σ) : PersistentDataStoreReporter σ × ReporterEffects :=
  let samplesToFlush := (r.buffer.take r.buffer.length).drop 0
  let res := ds.PersistSamples r.dataStore samplesToFlush
  let printed : List GoError :=
    match res.2 with
    | some err => [err]
    | none => []
  ({ buffer := r.buffer.take 0, dataStore := res.1 },
    { persistCalls := [samplesToFlush], printed := printed, responses := [] })

/-- The case `sample := <-r.sampleChan` of the reporter goroutine. -/
def PersistentDataStoreReporter.onSampleReceived {σ : Type}
    (r : PersistentDataStoreReporter σ) (sample : Sample) :
    PersistentDataStoreReporter σ × ReporterEffects :=
  ({ r with buffer := r.buffer ++ [sample] },
    { persistCalls := [], printed := [], responses := [] })

/-- The loop `for _, sample := range r.buffer` of the range-query case, started with the
`eligibleSamples` collected so far. -/
def eligibleLoop (req : SampleRetrievalRequest) : List Sample → List Sample → List Sample
  | [], eligibleSamples => eligibleSamples
  | sample :: rest, eligibleSamples =>
    let doesDataSourceIdMatch := decide (sample.DataSourceId = req.DataSourceId)
    let doesFromTimeMatch := sample.Timestamp.Equal req.From || sample.Timestamp.After req.From
    let doesToTimeMatch := sample.Timestamp.Equal req.To || sample.Timestamp.Before req.To
    if doesDataSourceIdMatch && doesFromTimeMatch && doesToTimeMatch then
      eligibleLoop req rest (eligibleSamples ++ [sample])
    else
      eligibleLoop req rest eligibleSamples

/-- The case `sampleRetrievalRequest := <-r.sampleRequestChan` of the reporter goroutine. -/
def PersistentDataStoreReporter.onSampleRetrievalRequest {σ : Type}
    (r : PersistentDataStoreReporter σ) (req : SampleRetrievalRequest) :
    PersistentDataStoreReporter σ × ReporterEffects :=
  let eligibleSamples := eligibleLoop req r.buffer []
  (r, { persistCalls := [], printed := [], responses := [eligibleSamples] })

/-- Go `(*PersistentDataStoreReporter).GetSamples`: sends the request to the goroutine and
returns what comes back on the response channel (`nil`, the empty slice, if nothing would). -/
def PersistentDataStoreReporter.GetSamples {σ : Type} (r : PersistentDataStoreReporter σ)
    (dataSourceId : GoString) (fromT toT : Time) :
    PersistentDataStoreReporter σ × List Sample :=
  let res := r.onSampleRetrievalRequest { DataSourceId := dataSourceId, From := fromT, To := toT }
  (res.1, res.2.responses.headD [])

/-! ## The scheduler actor -/

/-- A job allocated by `AddJobRequest.Run`: the source id it was created for, whether its
ticker has been stopped and whether its tomb has been killed. -/
structure SchedulerJob where
  dataSourceId : GoString
  tickerStopped : Bool
  killed : Bool
  deriving DecidableEq, Repr

/-- The requests of the scheduler. The job function of an add request is run by the goroutine
of the job, never by the actor, and is left out. -/
inductive SchedulerRequest where
  | AddJobRequest (dataSourceId : GoString) (interval : Int)
  | GetAllJobsRequest
  | RemoveJobRequest (jobId : GoString)
  | RemoveAllJobsRequest
  deriving DecidableEq, Repr

/-- A value written on the response channel of a request. -/
inductive SchedulerResponse where
  | jobId (dataSourceId : GoString)
  | snapshot (registrySnapshot : List (GoString × SchedulerJob))
  | done (ok : Bool)
  deriving DecidableEq, Repr

/-- What the actor did for one request: the values written on the error channel and on the
response channel of the request, in order, and whether `Run` was called. -/
structure SchedulerReply where
  errorChan : List (Option GoError)
  responseChan : List SchedulerResponse
  ran : Bool
  deriving DecidableEq, Repr

/-- The state of the scheduler actor. `jobs` holds every job allocated so far, a job being
known by its index; `registry` is the map from source id to job, with at most one entry per
id. -/
structure KasperbrettScheduler where
  jobs : List SchedulerJob
  registry : List (GoString × Nat)
  isShutDown : Bool
  deriving DecidableEq, Repr

/-- Go `NewKasperbrettScheduler`: no job, empty registry, not shut down. -/
def NewKasperbrettScheduler : KasperbrettScheduler :=
  { jobs := [], registry := [], isShutDown := false }

/-- Go `registry[id] = job` on the map. -/
def registrySet (registry : List (GoString × Nat)) (id : GoString) (job : Nat) :
    List (GoString × Nat) :=
  match registry with
  | [] => [(id, job)]
  | (k, j) :: rest => if k = id then (id, job) :: rest else (k, j) :: registrySet rest id job

/-- Go `job, ok := registry[id]`. -/
def registryGet (registry : List (GoString × Nat)) (id : GoString) : Option Nat :=
  (registry.find? (fun e => decide (e.1 = id))).map Prod.snd

/-- Go `delete(registry, id)`. -/
def registryDelete (registry : List (GoString × Nat)) (id : GoString) : List (GoString × Nat) :=
  registry.filter (fun e => decide (e.1 ≠ id))

/-- The calls `job.ticker.Stop()` and `job.t.Kill(nil)` on the job at index `job`. -/
def stopAndKill (jobs : List SchedulerJob) (job : Nat) : List SchedulerJob :=
  jobs.modify (fun j => { j with tickerStopped := true, killed := true }) job

/-- The result of `job.t.Wait()` after `job.t.Kill(nil)`: the function given to `job.t.Go`
returns only `nil`, so the tomb dies without a reason. -/
def waitResult (_jobs : List SchedulerJob) (_job : Nat) : Option GoError := none

/-- The loop of `RemoveAllJobsRequest.Run` over the entries still to visit. The order in which
Go walks a map is not fixed; the entries are taken in the order of the list. -/
def removeAllLoop : List (GoString × Nat) → List SchedulerJob → List (GoString × Nat) →
    Option GoError → List SchedulerJob × List (GoString × Nat) × Option GoError
  | [], jobs, registry, overallErr => (jobs, registry, overallErr)
  | (jobId, job) :: rest, jobs, registry, overallErr =>
    let jobs := stopAndKill jobs job
    let registry := registryDelete registry jobId
    let err := waitResult jobs job
    let overallErr := if err ≠ none ∧ overallErr = none then err else overallErr
    removeAllLoop rest jobs registry overallErr

/-- Go `Run` of the four request types on the jobs and the registry; `time.NewTicker` panics
on an interval that is not positive. -/
def SchedulerRequest.Run (req : SchedulerRequest) (jobs : List SchedulerJob)
    (registry : List (GoString × Nat)) :
    Except Panic (List SchedulerJob × List (GoString × Nat) × SchedulerReply) :=
  match req with
  | .AddJobRequest dataSourceId interval =>
    if interval ≤ 0 then .error (.message (str "non-positive interval for NewTicker"))
    else
      let job := jobs.length
      let jobs := jobs ++ [{ dataSourceId := dataSourceId, tickerStopped := false, killed := false }]
      let registry := registrySet registry dataSourceId job
      .ok (jobs, registry, { errorChan := [], responseChan := [.jobId dataSourceId], ran := true })
  | .GetAllJobsRequest =>
    let registrySnapshot := registry.filterMap (fun e => (jobs.get? e.2).map (fun j => (e.1, j)))
    .ok (jobs, registry, { errorChan := [], responseChan := [.snapshot registrySnapshot], ran := true })
  | .RemoveJobRequest jobId =>
    match registryGet registry jobId with
    | none =>
      let err := some (str "Job not available: " ++ jobId)
      .ok (jobs, registry, { errorChan := [err], responseChan := [.done true], ran := true })
    | some job =>
      let jobs := stopAndKill jobs job
      let registry := registryDelete registry jobId
      let err := waitResult jobs job
      .ok (jobs, registry, { errorChan := [err], responseChan := [.done true], ran := true })
  | .RemoveAllJobsRequest =>
    let r := removeAllLoop registry jobs registry none
    .ok (r.1, r.2.1, { errorChan := [r.2.2], responseChan := [.done true], ran := true })

/-- Go `IsShutDownRoutine` of the four request types. -/
def SchedulerRequest.IsShutDownRoutine : SchedulerRequest → Bool
  | .RemoveAllJobsRequest => true
  | _ => false

/-- One turn of the goroutine of `NewKasperbrettScheduler` for the request `req`. -/
def KasperbrettScheduler.serve (ks : KasperbrettScheduler) (req : SchedulerRequest) :
    Except Panic (KasperbrettScheduler × SchedulerReply) :=
  if ks.isShutDown then
    .ok (ks, { errorChan := [some (str "The KasperbrettScheduler has already been shut down.")],
               responseChan := [], ran := false })
  else
    match req.Run ks.jobs ks.registry with
    | .error p => .error p
    | .ok (jobs, registry, reply) =>
      .ok ({ jobs := jobs, registry := registry, isShutDown := req.IsShutDownRoutine }, reply)

/-- The goroutine of `NewKasperbrettScheduler` serving the requests of a list one after the
other: the final state and the replies in order. -/
def KasperbrettScheduler.serveAll (ks : KasperbrettScheduler) :
    List SchedulerRequest → Except Panic (KasperbrettScheduler × List SchedulerReply)
  | [] => .ok (ks, [])
  | req :: rest =>
    match ks.serve req with
    | .error p => .error p
    | .ok (ks1, reply) =>
      match ks1.serveAll rest with
      | .error p => .error p
      | .ok (ks2, replies) => .ok (ks2, reply :: replies)

/-! ## Scenario data -/

/-- The instant 2020-01-01T00:00:00Z plus `nanos` nanoseconds, in UTC. -/
def jan1 (nanos : Int) : Time := { unixNano := 1577836800000000000 + nanos, offset := 0 }

/-- The three samples of scenario S1: source `ds-A` at 00:00:00, 00:00:00.5 and 00:00:01. -/
def s1Samples : List Sample :=
  [ { Value := str "1", Timestamp := jan1 0, DataSourceId := str "ds-A", Err := none },
    { Value := str "2", Timestamp := jan1 500000000, DataSourceId := str "ds-A", Err := none },
    { Value := str "3", Timestamp := jan1 1000000000, DataSourceId := str "ds-A", Err := none } ]

/-- The two samples of scenario S2: sources `ds-A` and `ds-B` at the same instant. -/
def s2Samples : List Sample :=
  [ { Value := str "A", Timestamp := jan1 0, DataSourceId := str "ds-A", Err := none },
    { Value := str "B", Timestamp := jan1 0, DataSourceId := str "ds-B", Err := none } ]

/-- An opened store with an empty bucket. -/
def emptyStore : BoltDataStore := { bucket := [] }

/-- The store after `PersistSamples` was called with each batch of a list in turn. -/
def persistAll (ds : BoltDataStore) : List (List Sample) → BoltDataStore
  | [] => ds
  | batch :: rest => persistAll (ds.PersistSamples batch).1 rest

/-- The reply of the actor to a request that arrives after the shutdown. -/
def rejected : SchedulerReply :=
  { errorChan := [some (str "The KasperbrettScheduler has already been shut down.")],
    responseChan := [], ran := false }

/-- A scraper of source `ds-A` with the given transformation script. -/
def scraperA (transformationScript : GoString) : UrlScraper :=
  { dataSourceId := str "ds-A", url := str "http://localhost/", cssPath := str "h1",
    transformationScript := transformationScript }

/-- The keys of the bucket ascend strictly in byte order. -/
def Bucket.Sorted (b : Bucket) : Prop :=
  b.Pairwise (fun x y => bytesCompare x.1 y.1 < 0)

/-- Every pair of the bucket holds, under the key of a sample whose source id is without `#`,
the bytes of that sample. -/
def Bucket.HoldsSamples (b : Bucket) : Prop :=
  ∀ kv ∈ b, ∃ s : Sample, 35 ∉ s.DataSourceId ∧ kv.1 = s.Key ∧ s.GobEncode = .ok kv.2

/-! ## Counting along a run of the scheduler -/

/-- A job is live while its ticker has not been stopped and its tomb has not been killed. -/
def SchedulerJob.live (j : SchedulerJob) : Bool := !j.tickerStopped && !j.killed

/-- The live jobs among `jobs` that were created for the source `id`. -/
def liveJobs (jobs : List SchedulerJob) (id : GoString) : List SchedulerJob :=
  jobs.filter (fun j => decide (j.dataSourceId = id) && j.live)

/-- The job as `job.ticker.Stop()` and `job.t.Kill(nil)` leave it. -/
def SchedulerJob.stopped (j : SchedulerJob) : SchedulerJob :=
  { j with tickerStopped := true, killed := true }

/-- The counts of the cardinality law, taken along a run of the actor: the add requests whose
`Run` was called, those among them whose id was not in the registry at that time, the cancel
requests run for an id that was in the registry, and the sum over the shutdown requests run of
the size the registry had just before. -/
structure Tally where
  addsRun : Nat
  addsOfNewId : Nat
  cancelsOfPresent : Nat
  removedByShutdown : Nat
  deriving DecidableEq, Repr

/-- The tally `t` of the later requests with the request `req`, served in the state `ks`,
counted in. A request that is rejected after the shutdown counts for nothing. -/
def tallyStep (ks : KasperbrettScheduler) (req : SchedulerRequest) (t : Tally) : Tally :=
  if ks.isShutDown then t
  else
    match req with
    | .AddJobRequest id _ =>
      { t with addsRun := t.addsRun + 1,
               addsOfNewId := t.addsOfNewId + (if registryGet ks.registry id = none then 1 else 0) }
    | .GetAllJobsRequest => t
    | .RemoveJobRequest id =>
      { t with cancelsOfPresent :=
          t.cancelsOfPresent + (if registryGet ks.registry id = none then 0 else 1) }
    | .RemoveAllJobsRequest =>
      { t with removedByShutdown := t.removedByShutdown + ks.registry.length }

/-- The tally of the requests `reqs` served from the state `ks` on. -/
def tally (ks : KasperbrettScheduler) : List SchedulerRequest → Tally
  | [] => { addsRun := 0, addsOfNewId := 0, cancelsOfPresent := 0, removedByShutdown := 0 }
  | req :: rest =>
    match ks.serve req with
    | .error _ => { addsRun := 0, addsOfNewId := 0, cancelsOfPresent := 0, removedByShutdown := 0 }
    | .ok (ks1, _) => tallyStep ks req (tally ks1 rest)

/-- Whether `Run` of the request gets past `time.NewTicker`, which panics on an interval that
is not positive; only an add request starts a ticker. -/
def SchedulerRequest.tickerStarts : SchedulerRequest → Bool
  | .AddJobRequest _ interval => decide (0 < interval)
  | _ => true

/-- Fifty milliseconds as a `time.Duration`. -/
def ms50 : Int := 50000000

/-- A running scheduler with a job for `ds-X` and a job for `ds-Y`. -/
def twoJobs : KasperbrettScheduler :=
  { jobs := [{ dataSourceId := str "ds-X", tickerStopped := false, killed := false },
             { dataSourceId := str "ds-Y", tickerStopped := false, killed := false }],
    registry := [(str "ds-X", 0), (str "ds-Y", 1)], isShutDown := false }

/-! ## KasperbrettReportingEngine -/

/-- The methods of the interface `Reporter` that the engine calls itself, on a reporter in the
state `ρ`. `OnSample` is called in goroutines of its own and is left out. -/
structure Reporter (ρ : Type) where
  Prepare : ρ → ρ × Option GoError
  ShutDown : ρ → ρ × Option GoError

/-- The state owned by the goroutine of `NewKasperbrettReportingEngine`: the registered
reporters in registration order. -/
structure KasperbrettReportingEngine (ρ : Type) where
  reporters : List ρ

/-- The case `reporter := <-re.reporterRegistrationChan`: the reporter is appended and then
prepared, the error of `Prepare` being dropped. -/
def KasperbrettReportingEngine.onRegistration {ρ : Type} (R : Reporter ρ)
    (re : KasperbrettReportingEngine ρ) (reporter : ρ) : KasperbrettReportingEngine ρ :=
  { reporters := re.reporters ++ [(R.Prepare reporter).1] }

/-- What the shutdown case of the engine did: the reporters `ShutDown` was called on, in call
order, and the errors sent on the response channel. -/
structure EngineEffects (ρ : Type) where
  shutDownCalls : List ρ
  responses : List (Option GoError)

/-- The loop `for _, reporter := range re.reporters` of the shutdown case: the reporters still
to visit, `overallErr`, the reporters as their `ShutDown` left them and the calls made so
far. -/
def shutDownLoop {ρ : Type} (R : Reporter ρ) :
    List ρ → Option GoError → List ρ → List ρ → List ρ × Option GoError × List ρ
  | [], overallErr, after, calls => (after, overallErr, calls)
  | reporter :: rest, overallErr, after, calls =>
    let r := R.ShutDown reporter
    let overallErr := if r.2 ≠ none ∧ overallErr = none then r.2 else overallErr
    shutDownLoop R rest overallErr (after ++ [r.1]) (calls ++ [reporter])

/-- The case `responseChan := <-re.shutDownChan` of the engine goroutine. -/
def KasperbrettReportingEngine.onShutDown {ρ : Type} (R : Reporter ρ)
    (re : KasperbrettReportingEngine ρ) : KasperbrettReportingEngine ρ × EngineEffects ρ :=
  let r := shutDownLoop R re.reporters none [] []
  ({ reporters := r.1 }, { shutDownCalls := r.2.2, responses := [r.2.1] })

/-- Go `(*KasperbrettReportingEngine).ShutDown`: sends a response channel to the goroutine and
returns the error that comes back on it. -/
def KasperbrettReportingEngine.ShutDown {ρ : Type} (R : Reporter ρ)
    (re : KasperbrettReportingEngine ρ) : KasperbrettReportingEngine ρ × Option GoError :=
  let res := re.onShutDown R
  (res.1, res.2.responses.headD none)

/-! ## Shutdown of the PersistentDataStoreReporter -/

/-- A call that a method of the reporter makes on its flush ticker or on its data store. -/
inductive ReporterCall where
  | flushTickerStop
  | persistSamples (samples : List Sample)
  | dataStoreShutDown
  deriving DecidableEq, Repr

/-- Go `(*PersistentDataStoreReporter).ShutDown`, whose body is `return r.dataStore.ShutDown()`:
the reporter afterwards, the returned error and the calls made, in order. -/
def PersistentDataStoreReporter.ShutDown {σ : Type} (ds : DataStore σ)
    (r : PersistentDataStoreReporter σ) :
    PersistentDataStoreReporter σ × Option GoError × List ReporterCall :=
  let res := ds.ShutDown r.dataStore
  ({ r with dataStore := res.1 }, res.2, [.dataStoreShutDown])

/-- The `BoltDataStore` behind the interface `DataStore`; closing the database leaves the
bucket as it is. -/
def boltDataStore : DataStore BoltDataStore :=
  { PersistSamples := BoltDataStore.PersistSamples
    ShutDown := fun ds => (ds, none) }

/-! ## The attempts of the persist loop, one by one -/

/-- The bucket after the samples `pre` have gone through the persist loop from the bucket `b`:
each sample that encodes has been `Put`, whatever the `Put` returned. -/
def bucketAfter {B V : Type} (encode : Sample → Except GoError V)
    (put : B → GoString → V → B × Option GoError) (b : B) (pre : List Sample) : B :=
  pre.foldl (fun b s =>
    match encode s with
    | .ok v => (put b s.Key v).1
    | .error _ => b) b

/-- The attempt the persist loop has to make for the sample `s` when the samples `pre` came
before it: the failed encode, or the `Put` of key and bytes with the error that `Put` returns
on the bucket reached by then. -/
def attemptFor {B V : Type} (encode : Sample → Except GoError V)
    (put : B → GoString → V → B × Option GoError) (b : B) (pre : List Sample) (s : Sample) :
    PersistAttempt V :=
  match encode s with
  | .error err => .encodeFailed s err
  | .ok v => .put s s.Key v (put (bucketAfter encode put b pre) s.Key v).2

/-! ## Key order (C1) and range scans on the scenario S1 (C2) -/

/-- C1, evaluated on the code: the samples of source `ds-A` taken at 2020-01-01T00:00:00Z and
half a second later have the keys `ds-A#2020-01-01T00:00:00Z` and
`ds-A#2020-01-01T00:00:00.5Z`; the earlier sample has the byte-wise greater key, so the order
of the keys is not the order of the timestamps. -/
theorem C1_key_order_of_whole_second :
    (jan1 0).unixNano ≤ (jan1 500000000).unixNano
      ∧ GenerateKey (str "ds-A") (str "#") (jan1 0) = str "ds-A#2020-01-01T00:00:00Z"
      ∧ GenerateKey (str "ds-A") (str "#") (jan1 500000000) = str "ds-A#2020-01-01T00:00:00.5Z"
      ∧ s1Samples.map Sample.Key
          = [str "ds-A#2020-01-01T00:00:00Z", str "ds-A#2020-01-01T00:00:00.5Z",
             str "ds-A#2020-01-01T00:00:01Z"]
      ∧ bytesCompare (GenerateKey (str "ds-A") (str "#") (jan1 0))
          (GenerateKey (str "ds-A") (str "#") (jan1 500000000)) = 1 := by
  decide

/-- C2, evaluated on the code for scenario S1: the three samples are persisted without error,
the bucket holds them with the key of 00:00:00.5 before the key of 00:00:00, and
`GetSamples("ds-A", 00:00:00.000, 00:00:00.999)` returns no sample at all, where the two
samples at 00:00:00 and 00:00:00.5 lie in the range. -/
theorem C2_scenario_S1_scan_is_empty :
    (emptyStore.PersistSamples s1Samples).2 = none
      ∧ (emptyStore.PersistSamples s1Samples).1.bucket.map Prod.fst
          = [str "ds-A#2020-01-01T00:00:00.5Z", str "ds-A#2020-01-01T00:00:00Z",
             str "ds-A#2020-01-01T00:00:01Z"]
      ∧ (emptyStore.PersistSamples s1Samples).1.GetSamples (str "ds-A") (jan1 0) (jan1 999000000)
          = ([], none)
      ∧ s1Samples.filter (fun s => decide (s.DataSourceId = str "ds-A"
            ∧ (jan1 0).unixNano ≤ s.Timestamp.unixNano
            ∧ s.Timestamp.unixNano ≤ (jan1 999000000).unixNano))
          = s1Samples.take 2 := by
  decide

/-! ## Encoding round trip (C3) -/

/-- `MarshalBinary` accepts a time whose zone offset, in whole minutes, fits in an `int16`
and is not `-1`. -/
theorem MarshalBinary_ok (t : Time)
    (hz : -32768 ≤ t.offset.tdiv 60 ∧ t.offset.tdiv 60 ≠ -1 ∧ t.offset.tdiv 60 ≤ 32767) :
    t.MarshalBinary = .ok t := by
  have hc : ¬ (t.offset.tdiv 60 < -32768 ∨ t.offset.tdiv 60 = -1 ∨ t.offset.tdiv 60 > 32767) := by
    omega
  simp only [Time.MarshalBinary, hc, if_false]

/-- `MarshalBinary` refuses every other zone offset. -/
theorem MarshalBinary_error (t : Time)
    (hz : ¬ (-32768 ≤ t.offset.tdiv 60 ∧ t.offset.tdiv 60 ≠ -1 ∧ t.offset.tdiv 60 ≤ 32767)) :
    t.MarshalBinary = .error (str "Time.MarshalBinary: unexpected zone offset") := by
  have hc : t.offset.tdiv 60 < -32768 ∨ t.offset.tdiv 60 = -1 ∨ t.offset.tdiv 60 > 32767 := by
    omega
  simp only [Time.MarshalBinary, hc, if_true]

/-- What `GobEncode` returns, by the result of `MarshalBinary` on the timestamp. -/
theorem GobEncode_eq (s : Sample) :
    s.GobEncode
      = match s.Timestamp.MarshalBinary with
        | .error err => .error err
        | .ok marshalled =>
          .ok [.string s.Value, .time marshalled, .string s.DataSourceId,
            .string (match s.Err with | some e => e | none => [])] := by
  simp only [Sample.GobEncode, gobEncode]
  cases s.Timestamp.MarshalBinary <;> rfl

/-- The bytes of a sample that encodes. -/
theorem GobEncode_inv (s : Sample) (bytes : GobBytes) (h : s.GobEncode = .ok bytes) :
    bytes = [.string s.Value, .time s.Timestamp, .string s.DataSourceId,
      .string (match s.Err with | some e => e | none => [])] := by
  rw [GobEncode_eq] at h
  by_cases hz : -32768 ≤ s.Timestamp.offset.tdiv 60 ∧ s.Timestamp.offset.tdiv 60 ≠ -1
      ∧ s.Timestamp.offset.tdiv 60 ≤ 32767
  · rw [MarshalBinary_ok _ hz] at h
    injection h with h
    exact h.symm
  · rw [MarshalBinary_error _ hz] at h
    simp at h

/-- C3 fails as stated: a sample whose error is present with the empty text is encoded without
error, and decoding the bytes gives a sample without error, which is another sample; and a
sample whose timestamp lies in a zone one minute west of UTC is not encoded at all, because
`Time.MarshalBinary` refuses the zone offset. -/
theorem C3_empty_error_text_is_lost :
    (∃ bytes, Sample.GobEncode
        { Value := [], Timestamp := jan1 0, DataSourceId := str "ds-A", Err := some [] }
          = .ok bytes
      ∧ (Sample.GobDecode Sample.zero bytes).2 = none
      ∧ (Sample.GobDecode Sample.zero bytes).1.Err = none
      ∧ (Sample.GobDecode Sample.zero bytes).1
          ≠ { Value := [], Timestamp := jan1 0, DataSourceId := str "ds-A", Err := some [] })
      ∧ Sample.GobEncode
          { Value := str "1", Timestamp := { unixNano := 1577836800000000000, offset := -60 },
            DataSourceId := str "ds-A", Err := none }
        = .error (str "Time.MarshalBinary: unexpected zone offset") :=
  ⟨⟨_, rfl, by decide, by decide, by decide⟩, rfl⟩

/-- C3 as amended: for every sample whose error is absent or has a text that is not empty, and
whose timestamp has a zone offset that `Time.MarshalBinary` accepts (in whole minutes, cut
towards zero, it fits in an `int16` and is not `-1`), `GobEncode` succeeds and `GobDecode` of
its output, into any receiver, returns nil and leaves the receiver equal to the sample in all
four fields. -/
theorem C3_gob_round_trip (s this : Sample) (h : s.Err ≠ some [])
    (hz : -32768 ≤ s.Timestamp.offset.tdiv 60 ∧ s.Timestamp.offset.tdiv 60 ≠ -1
      ∧ s.Timestamp.offset.tdiv 60 ≤ 32767) :
    ∃ bytes, s.GobEncode = .ok bytes ∧ Sample.GobDecode this bytes = (s, none) := by
  refine ⟨[.string s.Value, .time s.Timestamp, .string s.DataSourceId,
    .string (match s.Err with | some e => e | none => [])], ?_, ?_⟩
  · rw [GobEncode_eq, MarshalBinary_ok _ hz]
  · obtain ⟨v, t, d, e⟩ := s
    cases e with
    | none => simp [Sample.GobDecode, gobDecodeString, gobDecodeTime]
    | some e =>
      have he : e ≠ [] := fun hh => h (by simp [hh])
      have hl : 0 < e.length := List.length_pos.mpr he
      simp [Sample.GobDecode, gobDecodeString, gobDecodeTime, hl]

/-- C3 witness: a sample carrying the error `boom`, taken in a zone one hour east of UTC,
comes back unchanged. -/
theorem C3_gob_round_trip_witness :
    (some (str "boom") : Option GoError) ≠ some []
      ∧ (-32768 ≤ (3600 : Int).tdiv 60 ∧ (3600 : Int).tdiv 60 ≠ -1 ∧ (3600 : Int).tdiv 60 ≤ 32767)
      ∧ ∃ bytes, Sample.GobEncode
            { Value := [], Timestamp := { unixNano := 1577836800000000000, offset := 3600 },
              DataSourceId := str "ds-A", Err := some (str "boom") } = .ok bytes
          ∧ Sample.GobDecode Sample.zero bytes
            = ({ Value := [], Timestamp := { unixNano := 1577836800000000000, offset := 3600 },
                 DataSourceId := str "ds-A", Err := some (str "boom") }, none) :=
  ⟨by decide, by decide,
    C3_gob_round_trip
      { Value := [], Timestamp := { unixNano := 1577836800000000000, offset := 3600 },
        DataSourceId := str "ds-A", Err := some (str "boom") } Sample.zero (by decide)
      (by decide)⟩

/-! ## Queries on the buffer (C4) -/

/-- The range-query loop appends to `eligibleSamples` the samples that pass the three tests,
in order. -/
theorem eligibleLoop_eq_filter (req : SampleRetrievalRequest) (buffer acc : List Sample) :
    eligibleLoop req buffer acc
      = acc ++ buffer.filter (fun s => decide (s.DataSourceId = req.DataSourceId
          ∧ req.From.unixNano ≤ s.Timestamp.unixNano
          ∧ s.Timestamp.unixNano ≤ req.To.unixNano)) := by
  induction buffer generalizing acc with
  | nil => simp [eligibleLoop]
  | cons s rest ih =>
    have hfrom : (s.Timestamp.Equal req.From || s.Timestamp.After req.From)
        = decide (req.From.unixNano ≤ s.Timestamp.unixNano) := by
      simp only [Time.Equal, Time.After, Bool.decide_eq_true, ← Bool.decide_or]
      apply decide_eq_decide.mpr
      omega
    have hto : (s.Timestamp.Equal req.To || s.Timestamp.Before req.To)
        = decide (s.Timestamp.unixNano ≤ req.To.unixNano) := by
      simp only [Time.Equal, Time.Before, Bool.decide_eq_true, ← Bool.decide_or]
      apply decide_eq_decide.mpr
      omega
    simp only [eligibleLoop, hfrom, hto, List.filter_cons]
    by_cases h1 : s.DataSourceId = req.DataSourceId <;>
      by_cases h2 : req.From.unixNano ≤ s.Timestamp.unixNano <;>
      by_cases h3 : s.Timestamp.unixNano ≤ req.To.unixNano <;>
      simp [h1, h2, h3, ih]

/-- C4: for every buffer and every request `(id, from, to)` the range-query case replies once,
with the buffered samples whose `DataSourceId` is `id` and whose timestamp lies in
`[from, to]`, both ends included, each once and in buffer order, persists and prints nothing
and leaves the reporter, its buffer included, as it was; `GetSamples` returns that reply. -/
theorem C4_buffer_query {σ : Type} (r : PersistentDataStoreReporter σ) (id : GoString)
    (fromT toT : Time) :
    r.onSampleRetrievalRequest { DataSourceId := id, From := fromT, To := toT }
        = (r, { persistCalls := [], printed := [],
                responses := [r.buffer.filter (fun s => decide (s.DataSourceId = id
                  ∧ fromT.unixNano ≤ s.Timestamp.unixNano
                  ∧ s.Timestamp.unixNano ≤ toT.unixNano))] })
      ∧ r.GetSamples id fromT toT
        = (r, r.buffer.filter (fun s => decide (s.DataSourceId = id
            ∧ fromT.unixNano ≤ s.Timestamp.unixNano
            ∧ s.Timestamp.unixNano ≤ toT.unixNano))) := by
  simp [PersistentDataStoreReporter.GetSamples,
    PersistentDataStoreReporter.onSampleRetrievalRequest, eligibleLoop_eq_filter]

/-! ## Requests after the shutdown (C5) -/

/-- A scheduler that is shut down answers every request with the rejection and stays as it
is. -/
theorem serve_of_isShutDown (ks : KasperbrettScheduler) (h : ks.isShutDown = true)
    (req : SchedulerRequest) : ks.serve req = .ok (ks, rejected) := by
  simp [KasperbrettScheduler.serve, h, rejected]

/-- A scheduler that is shut down rejects the requests of any list. -/
theorem serveAll_of_isShutDown (ks : KasperbrettScheduler) (h : ks.isShutDown = true)
    (reqs : List SchedulerRequest) :
    ks.serveAll reqs = .ok (ks, reqs.map (fun _ => rejected)) := by
  induction reqs with
  | nil => rfl
  | cons req rest ih => simp [KasperbrettScheduler.serveAll, serve_of_isShutDown ks h, ih]

/-- C5: in every state the actor serves a shutdown request without panic and is shut down
afterwards; from then on each request of any list of requests, of whatever kind, gets the error
`The KasperbrettScheduler has already been shut down.` on its error channel and nothing on its
response channel, its `Run` is not called, and the state of the scheduler, registry and jobs
included, stays the same. -/
theorem C5_rejection_after_shutdown (ks : KasperbrettScheduler) :
    ∃ ks1 reply, ks.serve .RemoveAllJobsRequest = .ok (ks1, reply)
      ∧ ks1.isShutDown = true
      ∧ (∀ req, ks1.serve req = .ok (ks1,
            { errorChan := [some (str "The KasperbrettScheduler has already been shut down.")],
              responseChan := [], ran := false }))
      ∧ ∀ reqs, ks1.serveAll reqs = .ok (ks1, reqs.map (fun _ => rejected)) := by
  by_cases h : ks.isShutDown = true
  · exact ⟨ks, rejected, serve_of_isShutDown ks h _, h, serve_of_isShutDown ks h,
      serveAll_of_isShutDown ks h⟩
  · have hs : ks.serve .RemoveAllJobsRequest
        = .ok ({ jobs := (removeAllLoop ks.registry ks.jobs ks.registry none).1,
                 registry := (removeAllLoop ks.registry ks.jobs ks.registry none).2.1,
                 isShutDown := true },
               { errorChan := [(removeAllLoop ks.registry ks.jobs ks.registry none).2.2],
                 responseChan := [.done true], ran := true }) := by
      simp [KasperbrettScheduler.serve, h, SchedulerRequest.Run,
        SchedulerRequest.IsShutDownRoutine]
    exact ⟨_, _, hs, rfl, serve_of_isShutDown _ rfl, serveAll_of_isShutDown _ rfl⟩

/-! ## The persist loop -/

/-- The error that `overallError` holds after an attempt with error `err`. -/
theorem firstError_step (overallError err : Option GoError) :
    (if err ≠ none ∧ overallError = none then err else overallError)
      = overallError.orElse (fun _ => err) := by
  cases overallError <;> cases err <;> simp

/-- One turn of the persist loop on a sample whose encode fails. -/
theorem persistLoop_cons_error {B V : Type} (encode : Sample → Except GoError V)
    (put : B → GoString → V → B × Option GoError) (s : Sample) (rest : List Sample) (b : B)
    (overallError : Option GoError) (done : List (PersistAttempt V)) (e : GoError)
    (hs : encode s = .error e) :
    persistLoop encode put (s :: rest) b overallError done
      = persistLoop encode put rest b (if overallError = none then some e else overallError)
          (done ++ [.encodeFailed s e]) := by
  simp only [persistLoop, hs]

/-- One turn of the persist loop on a sample that encodes. -/
theorem persistLoop_cons_ok {B V : Type} (encode : Sample → Except GoError V)
    (put : B → GoString → V → B × Option GoError) (s : Sample) (rest : List Sample) (b : B)
    (overallError : Option GoError) (done : List (PersistAttempt V)) (v : V)
    (hs : encode s = .ok v) :
    persistLoop encode put (s :: rest) b overallError done
      = persistLoop encode put rest (put b s.Key v).1
          (if (put b s.Key v).2 ≠ none ∧ overallError = none then (put b s.Key v).2
            else overallError)
          (done ++ [.put s s.Key v (put b s.Key v).2]) := by
  simp only [persistLoop, hs]

/-- One more sample in front of the samples that came before. -/
theorem bucketAfter_cons {B V : Type} (encode : Sample → Except GoError V)
    (put : B → GoString → V → B × Option GoError) (b : B) (s : Sample) (rest : List Sample) :
    bucketAfter encode put b (s :: rest)
      = bucketAfter encode put (bucketAfter encode put b [s]) rest := rfl

/-- The bucket the persist loop returns is the bucket after all samples. -/
theorem persistLoop_bucket {B V : Type} (encode : Sample → Except GoError V)
    (put : B → GoString → V → B × Option GoError) (samples : List Sample) (b : B)
    (overallError : Option GoError) (done : List (PersistAttempt V)) :
    (persistLoop encode put samples b overallError done).1
      = bucketAfter encode put b samples := by
  induction samples generalizing b overallError done with
  | nil => rfl
  | cons s rest ih =>
    rw [bucketAfter_cons]
    cases hs : encode s with
    | error e =>
      rw [persistLoop_cons_error encode put s rest b overallError done e hs, ih]
      simp only [bucketAfter, List.foldl_cons, List.foldl_nil, hs]
    | ok v =>
      rw [persistLoop_cons_ok encode put s rest b overallError done v hs, ih]
      simp only [bucketAfter, List.foldl_cons, List.foldl_nil, hs]

/-- What the persist loop returns, by the attempts it adds: the attempts are those of the
samples in order, an attempt is a `Put` of key and bytes exactly for a sample that encodes,
the bucket has seen the `Put` of every such sample, and the error is the one held at the start
or else the first error among the added attempts. -/
theorem persistLoop_spec {B V : Type} (encode : Sample → Except GoError V)
    (put : B → GoString → V → B × Option GoError) (samples : List Sample) (b : B)
    (overallError : Option GoError) (done : List (PersistAttempt V)) :
    ∃ added : List (PersistAttempt V),
      (persistLoop encode put samples b overallError done).2.2 = done ++ added
      ∧ added.map PersistAttempt.sample = samples
      ∧ (∀ a ∈ added,
          (∀ e, encode a.sample = .error e → a = .encodeFailed a.sample e)
          ∧ (∀ v, encode a.sample = .ok v → ∃ err, a = .put a.sample a.sample.Key v err))
      ∧ (persistLoop encode put samples b overallError done).1
          = samples.foldl (fun b s =>
              match encode s with
              | .ok v => (put b s.Key v).1
              | .error _ => b) b
      ∧ (persistLoop encode put samples b overallError done).2.1
          = overallError.orElse (fun _ => (added.filterMap PersistAttempt.err).head?) := by
  induction samples generalizing b overallError done with
  | nil => exact ⟨[], by simp [persistLoop], rfl, by simp, rfl, by cases overallError <;> rfl⟩
  | cons s rest ih =>
    cases hs : encode s with
    | error e =>
      have hunf : persistLoop encode put (s :: rest) b overallError done
          = persistLoop encode put rest b (if overallError = none then some e else overallError)
              (done ++ [.encodeFailed s e]) := by
        simp only [persistLoop, hs]
      obtain ⟨added, h1, h2, h3, h4, h5⟩ :=
        ih b (if overallError = none then some e else overallError)
          (done ++ [.encodeFailed s e])
      rw [hunf]
      refine ⟨.encodeFailed s e :: added, ?_, ?_, ?_, ?_, ?_⟩
      · simp [h1]
      · simp [PersistAttempt.sample, h2]
      · intro a ha
        rcases List.mem_cons.mp ha with rfl | ha
        · simp [PersistAttempt.sample, hs]
        · exact h3 a ha
      · simp [hs, h4]
      · rw [h5]
        cases overallError <;> simp [PersistAttempt.err]
    | ok v =>
      have hunf : persistLoop encode put (s :: rest) b overallError done
          = persistLoop encode put rest (put b s.Key v).1
              (if (put b s.Key v).2 ≠ none ∧ overallError = none then (put b s.Key v).2
                else overallError)
              (done ++ [.put s s.Key v (put b s.Key v).2]) := by
        simp only [persistLoop, hs]
      obtain ⟨added, h1, h2, h3, h4, h5⟩ :=
        ih (put b s.Key v).1
          (if (put b s.Key v).2 ≠ none ∧ overallError = none then (put b s.Key v).2
            else overallError)
          (done ++ [.put s s.Key v (put b s.Key v).2])
      rw [hunf]
      refine ⟨.put s s.Key v (put b s.Key v).2 :: added, ?_, ?_, ?_, ?_, ?_⟩
      · simp [h1]
      · simp [PersistAttempt.sample, h2]
      · intro a ha
        rcases List.mem_cons.mp ha with rfl | ha
        · simp [PersistAttempt.sample, hs]
        · exact h3 a ha
      · simp [hs, h4]
      · rw [h5]
        cases overallError <;> cases hp : (put b s.Key v).2 <;> simp [PersistAttempt.err, hp]

/-! ## Byte order -/

theorem bytesCompare_swap (a b : GoString) : bytesCompare b a = - bytesCompare a b := by
  induction a generalizing b with
  | nil => cases b <;> simp [bytesCompare]
  | cons x xs ih =>
    cases b with
    | nil => simp [bytesCompare]
    | cons y ys =>
      simp only [bytesCompare]
      by_cases h1 : x < y
      · have h2 : ¬ y < x := by omega
        simp [h1, h2]
      · by_cases h2 : y < x
        · simp [h1, h2]
        · simp [h1, h2, ih]

theorem bytesCompare_range (a b : GoString) :
    bytesCompare a b = -1 ∨ bytesCompare a b = 0 ∨ bytesCompare a b = 1 := by
  induction a generalizing b with
  | nil => cases b <;> simp [bytesCompare]
  | cons x xs ih =>
    cases b with
    | nil => simp [bytesCompare]
    | cons y ys =>
      simp only [bytesCompare]
      split
      · simp
      · split
        · simp
        · exact ih ys

theorem bytesCompare_eq_zero (a b : GoString) (h : bytesCompare a b = 0) : a = b := by
  induction a generalizing b with
  | nil => cases b <;> simp_all [bytesCompare]
  | cons x xs ih =>
    cases b with
    | nil => simp [bytesCompare] at h
    | cons y ys =>
      simp only [bytesCompare] at h
      by_cases h1 : x < y
      · simp [h1] at h
      · by_cases h2 : y < x
        · simp [h1, h2] at h
        · simp only [h1, h2, if_false] at h
          have : x = y := by omega
          rw [this, ih ys h]

theorem bytesCompare_trans (a b c : GoString) (hab : bytesCompare a b < 0)
    (hbc : bytesCompare b c < 0) : bytesCompare a c < 0 := by
  induction a generalizing b c with
  | nil =>
    cases c with
    | nil => cases b <;> simp [bytesCompare] at hab hbc
    | cons z zs => simp [bytesCompare]
  | cons x xs ih =>
    cases b with
    | nil => simp [bytesCompare] at hab
    | cons y ys =>
      cases c with
      | nil => simp [bytesCompare] at hbc
      | cons z zs =>
        simp only [bytesCompare] at hab hbc ⊢
        by_cases hxy : x < y
        · by_cases hyz : y < z
          · have : x < z := by omega
            simp [this]
          · by_cases hzy : z < y
            · simp [hyz, hzy] at hbc
            · have : x < z := by omega
              simp [this]
        · by_cases hyx : y < x
          · simp [hxy, hyx] at hab
          · simp only [hxy, hyx, if_false] at hab
            by_cases hyz : y < z
            · have : x < z := by omega
              simp [this]
            · by_cases hzy : z < y
              · simp [hyz, hzy] at hbc
              · simp only [hyz, hzy, if_false] at hbc
                have h1 : ¬ x < z := by omega
                have h2 : ¬ z < x := by omega
                simp only [h1, h2, if_false]
                exact ih ys zs hab hbc

/-- A key that lies between two keys with a common beginning has that beginning too. -/
theorem isPrefix_of_between (p a b k : GoString) (h1 : bytesCompare (p ++ a) k ≤ 0)
    (h2 : bytesCompare k (p ++ b) ≤ 0) : p <+: k := by
  induction p generalizing k with
  | nil => exact List.nil_prefix
  | cons x xs ih =>
    cases k with
    | nil => simp [bytesCompare] at h1
    | cons y ys =>
      simp only [List.cons_append, bytesCompare] at h1 h2
      by_cases hxy : x < y
      · have hyx : ¬ y < x := by omega
        simp [hxy, hyx] at h2
      · by_cases hyx : y < x
        · simp [hxy, hyx] at h1
        · simp only [hxy, hyx, if_false] at h1 h2
          have : x = y := by omega
          subst this
          exact (List.prefix_cons_inj x).mpr (ih ys h1 h2)

/-! ## Buckets in key order -/

theorem mem_insert (key : GoString) (value : GobBytes) (b : Bucket) (x : GoString × GobBytes)
    (hx : x ∈ Bucket.insert key value b) : x = (key, value) ∨ x ∈ b := by
  induction b with
  | nil => simpa [Bucket.insert] using hx
  | cons kv rest ih =>
    obtain ⟨k, v⟩ := kv
    simp only [Bucket.insert] at hx
    split at hx
    · rcases List.mem_cons.mp hx with h | h
      · exact Or.inl h
      · exact Or.inr h
    · split at hx
      · rcases List.mem_cons.mp hx with h | h
        · exact Or.inl h
        · exact Or.inr (List.mem_cons_of_mem _ h)
      · rcases List.mem_cons.mp hx with h | h
        · exact Or.inr (h ▸ List.mem_cons_self _ _)
        · rcases ih h with h | h
          · exact Or.inl h
          · exact Or.inr (List.mem_cons_of_mem _ h)

theorem sorted_insert (key : GoString) (value : GobBytes) (b : Bucket) (hb : b.Sorted) :
    (Bucket.insert key value b).Sorted := by
  induction b with
  | nil => simp [Bucket.insert, Bucket.Sorted]
  | cons kv rest ih =>
    obtain ⟨k, v⟩ := kv
    have hb' := List.pairwise_cons.mp hb
    simp only [Bucket.insert]
    split
    · rename_i hlt
      refine List.pairwise_cons.mpr ⟨?_, hb⟩
      intro y hy
      rcases List.mem_cons.mp hy with h | h
      · rw [h]; exact hlt
      · exact bytesCompare_trans _ _ _ hlt (hb'.1 y h)
    · split
      · rename_i _ heq
        have hk : key = k := bytesCompare_eq_zero _ _ heq
        refine List.pairwise_cons.mpr ⟨?_, hb'.2⟩
        intro y hy
        rw [hk]
        exact hb'.1 y hy
      · rename_i hnlt hne
        have hgt : bytesCompare k key < 0 := by
          rw [bytesCompare_swap key k]
          rcases bytesCompare_range key k with h | h | h <;> omega
        refine List.pairwise_cons.mpr ⟨?_, ih hb'.2⟩
        intro y hy
        rcases mem_insert _ _ _ _ hy with h | h
        · rw [h]; exact hgt
        · exact hb'.1 y h

/-- On a bucket in key order no key from the seek position on is below the key sought. -/
theorem not_lt_of_mem_Seek (b : Bucket) (hb : b.Sorted) (seek : GoString)
    (x : GoString × GobBytes) (hx : x ∈ b.Seek seek) : ¬ bytesCompare x.1 seek < 0 := by
  induction b with
  | nil => simp [Bucket.Seek] at hx
  | cons kv rest ih =>
    have hb' := List.pairwise_cons.mp hb
    by_cases hlt : bytesCompare kv.1 seek < 0
    · have : Bucket.Seek (kv :: rest) seek = Bucket.Seek rest seek := by
        simp [Bucket.Seek, List.dropWhile_cons, hlt]
      rw [this] at hx
      exact ih hb'.2 hx
    · have : Bucket.Seek (kv :: rest) seek = kv :: rest := by
        simp [Bucket.Seek, List.dropWhile_cons, hlt]
      rw [this] at hx
      rcases List.mem_cons.mp hx with h | h
      · rw [h]; exact hlt
      · intro hxs
        exact hlt (bytesCompare_trans _ _ _ (hb'.1 x h) hxs)

theorem mem_of_mem_Seek (b : Bucket) (seek : GoString) (x : GoString × GobBytes)
    (hx : x ∈ b.Seek seek) : x ∈ b :=
  (List.dropWhile_sublist _).subset hx

/-- Every sample the cursor loop adds was decoded without error from a pair whose key is not
above `max`. -/
theorem mem_scanLoop (max : GoString) (l : Bucket) (acc : List Sample) (r : Sample)
    (hr : r ∈ scanLoop max l acc) :
    r ∈ acc ∨ ∃ kv ∈ l, bytesCompare kv.1 max ≤ 0
      ∧ Sample.GobDecode Sample.zero kv.2 = (r, none) := by
  induction l generalizing acc with
  | nil => exact Or.inl (by simpa [scanLoop] using hr)
  | cons kv rest ih =>
    obtain ⟨k, v⟩ := kv
    simp only [scanLoop] at hr
    split at hr
    · rename_i hle
      split at hr
      · rcases ih _ hr with h | ⟨kv, hkv, h⟩
        · exact Or.inl h
        · exact Or.inr ⟨kv, List.mem_cons_of_mem _ hkv, h⟩
      · rename_i hnone
        rcases ih _ hr with h | ⟨kv, hkv, h⟩
        · rcases List.mem_append.mp h with h | h
          · exact Or.inl h
          · refine Or.inr ⟨(k, v), List.mem_cons_self _ _, hle, ?_⟩
            have : r = (Sample.GobDecode Sample.zero v).1 := by simpa using h
            rw [this, ← hnone]
        · exact Or.inr ⟨kv, List.mem_cons_of_mem _ hkv, h⟩
    · exact Or.inl hr

/-! ## The bytes of a formatted time -/

theorem le_of_mem_fixedDigits (width n c : Nat) (hc : c ∈ fixedDigits width n) : 43 ≤ c := by
  induction width generalizing n with
  | zero => simp [fixedDigits] at hc
  | succ w ih =>
    simp only [fixedDigits, List.mem_append, List.mem_singleton] at hc
    rcases hc with h | h
    · exact ih _ h
    · rw [h]; unfold digit; omega

theorem le_of_mem_natDigits (fuel n c : Nat) (hc : c ∈ natDigits fuel n) : 43 ≤ c := by
  induction fuel generalizing n with
  | zero => simp [natDigits] at hc
  | succ f ih =>
    simp only [natDigits, List.mem_append, List.mem_singleton] at hc
    rcases hc with h | h
    · split at h
      · simp at h
      · exact ih _ h
    · rw [h]; unfold digit; omega

theorem mem_of_mem_dropZerosRev (l : GoString) (c : Nat) (hc : c ∈ dropZerosRev l) : c ∈ l := by
  induction l with
  | nil => simp [dropZerosRev] at hc
  | cons x xs ih =>
    simp only [dropZerosRev] at hc
    split at hc
    · exact List.mem_cons_of_mem _ (ih hc)
    · exact hc

theorem le_of_mem_appendInt (x : Int) (width c : Nat) (hc : c ∈ appendInt x width) :
    43 ≤ c := by
  simp only [appendInt, List.mem_append] at hc
  rcases hc with (h | h) | h
  · split at h
    · have : c = 45 := by simpa using h
      omega
    · simp at h
  · have := (List.mem_replicate.mp h).2
    omega
  · exact le_of_mem_natDigits _ _ _ h

theorem le_of_mem_formatNano (nanosec c : Nat) (hc : c ∈ formatNano nanosec) : 43 ≤ c := by
  simp only [formatNano] at hc
  split at hc
  · simp at hc
  · rcases List.mem_cons.mp hc with h | h
    · omega
    · have h1 := mem_of_mem_dropZerosRev _ _ (List.mem_reverse.mp h)
      exact le_of_mem_fixedDigits _ _ _ (List.mem_reverse.mp h1)

theorem le_of_mem_formatZone (offset : Int) (c : Nat) (hc : c ∈ formatZone offset) :
    43 ≤ c := by
  simp only [formatZone] at hc
  split at hc
  · have : c = 90 := by simpa using hc
    omega
  · simp only [List.mem_append, List.mem_singleton] at hc
    rcases hc with ((h | h) | h) | h
    · split at h
      · have : c = 45 := by simpa using h
        omega
      · have : c = 43 := by simpa using h
        omega
    · exact le_of_mem_fixedDigits _ _ _ h
    · omega
    · exact le_of_mem_fixedDigits _ _ _ h

/-- Every byte of a time in the layout `RFC3339Nano` is `+` (43) or above, so none is `#`. -/
theorem le_of_mem_Format (t : Time) (c : Nat) (hc : c ∈ t.FormatRFC3339Nano) : 43 ≤ c := by
  simp only [Time.FormatRFC3339Nano, List.mem_append, List.mem_singleton] at hc
  rcases hc with (((((((((((h | h) | h) | h) | h) | h) | h) | h) | h) | h) | h) | h) | h
  · exact le_of_mem_appendInt _ _ _ h
  · omega
  · exact le_of_mem_fixedDigits _ _ _ h
  · omega
  · exact le_of_mem_fixedDigits _ _ _ h
  · omega
  · exact le_of_mem_fixedDigits _ _ _ h
  · omega
  · exact le_of_mem_fixedDigits _ _ _ h
  · omega
  · exact le_of_mem_fixedDigits _ _ _ h
  · exact le_of_mem_formatNano _ _ h
  · exact le_of_mem_formatZone _ _ h

/-- A key begins with `id#` only if it is a key of the source `id`. -/
theorem id_eq_of_isPrefix (id sid ts : GoString) (hsid : 35 ∉ sid) (hts : 35 ∉ ts)
    (h : (id ++ [35]) <+: (sid ++ 35 :: ts)) : id = sid := by
  induction id generalizing sid with
  | nil =>
    cases sid with
    | nil => rfl
    | cons c cs =>
      have h1 := (List.cons_prefix_cons.mp h).1
      exact absurd (h1 ▸ List.mem_cons_self _ _) hsid
  | cons x xs ih =>
    cases sid with
    | nil =>
      have h1 := List.cons_prefix_cons.mp h
      have : 35 ∈ ts := h1.2.mem (by simp)
      exact absurd this hts
    | cons c cs =>
      have h1 := List.cons_prefix_cons.mp h
      have hcs : 35 ∉ cs := fun hh => hsid (List.mem_cons_of_mem _ hh)
      rw [h1.1, ih cs hcs h1.2]

/-! ## What the store holds, and cross-source isolation (C6) -/

/-- Decoding the bytes of a sample succeeds and gives back its source id. -/
theorem GobDecode_of_GobEncode (s this : Sample) (bytes : GobBytes)
    (h : s.GobEncode = .ok bytes) :
    (Sample.GobDecode this bytes).2 = none
      ∧ (Sample.GobDecode this bytes).1.DataSourceId = s.DataSourceId := by
  have h := GobEncode_inv s bytes h
  subst h
  simp only [Sample.GobDecode, gobDecodeString, gobDecodeTime]
  split <;> simp

theorem holdsSamples_Put (b : Bucket) (hb : b.Sorted ∧ b.HoldsSamples) (s : Sample)
    (hs : 35 ∉ s.DataSourceId) (v : GobBytes) (hv : s.GobEncode = .ok v) :
    (Bucket.Put b s.Key v).1.Sorted ∧ (Bucket.Put b s.Key v).1.HoldsSamples := by
  simp only [Bucket.Put]
  split
  · exact hb
  · split
    · exact hb
    · refine ⟨sorted_insert _ _ _ hb.1, ?_⟩
      intro kv hkv
      rcases mem_insert _ _ _ _ hkv with h | h
      · exact ⟨s, hs, by rw [h], by rw [h]; exact hv⟩
      · exact hb.2 kv h

theorem holdsSamples_bucketAfter (samples : List Sample)
    (hs : ∀ s ∈ samples, 35 ∉ s.DataSourceId) (b : Bucket) (hb : b.Sorted ∧ b.HoldsSamples) :
    (bucketAfter Sample.GobEncode Bucket.Put b samples).Sorted
      ∧ (bucketAfter Sample.GobEncode Bucket.Put b samples).HoldsSamples := by
  induction samples generalizing b with
  | nil => exact hb
  | cons s rest ih =>
    rw [bucketAfter_cons]
    apply ih (fun x hx => hs x (List.mem_cons_of_mem _ hx))
    cases hv : Sample.GobEncode s with
    | error e =>
      simp only [bucketAfter, List.foldl_cons, List.foldl_nil, hv]
      exact hb
    | ok v =>
      simp only [bucketAfter, List.foldl_cons, List.foldl_nil, hv]
      exact holdsSamples_Put b hb s (hs s (List.mem_cons_self _ _)) v hv

theorem holdsSamples_PersistSamples (ds : BoltDataStore)
    (hb : ds.bucket.Sorted ∧ ds.bucket.HoldsSamples) (samples : List Sample)
    (hs : ∀ s ∈ samples, 35 ∉ s.DataSourceId) :
    (ds.PersistSamples samples).1.bucket.Sorted
      ∧ (ds.PersistSamples samples).1.bucket.HoldsSamples := by
  have h4 := persistLoop_bucket Sample.GobEncode Bucket.Put samples ds.bucket none []
  simp only [BoltDataStore.PersistSamples, persistTx]
  split
  · simp only [h4]
    exact holdsSamples_bucketAfter samples hs ds.bucket hb
  · exact hb

theorem holdsSamples_persistAll (batches : List (List Sample))
    (hs : ∀ batch ∈ batches, ∀ s ∈ batch, 35 ∉ s.DataSourceId) (ds : BoltDataStore)
    (hb : ds.bucket.Sorted ∧ ds.bucket.HoldsSamples) :
    (persistAll ds batches).bucket.Sorted ∧ (persistAll ds batches).bucket.HoldsSamples := by
  induction batches generalizing ds with
  | nil => exact hb
  | cons batch rest ih =>
    simp only [persistAll]
    exact ih (fun b hb => hs b (List.mem_cons_of_mem _ hb)) _
      (holdsSamples_PersistSamples ds hb batch (hs batch (List.mem_cons_self _ _)))

/-- C6: for every store content that calls of `PersistSamples` built in an empty bucket from
samples whose source ids are without the separator `#` (byte 35), and for every `id`, `from`
and `to`, whatever bytes `id` is made of, each sample that `GetSamples(id, from, to)` returns
has `DataSourceId == id`, and the returned error is nil. -/
theorem C6_cross_source_isolation (batches : List (List Sample))
    (hs : ∀ batch ∈ batches, ∀ s ∈ batch, 35 ∉ s.DataSourceId)
    (id : GoString) (fromT toT : Time) :
    ((persistAll emptyStore batches).GetSamples id fromT toT).2 = none
      ∧ ∀ r ∈ ((persistAll emptyStore batches).GetSamples id fromT toT).1,
          r.DataSourceId = id := by
  refine ⟨rfl, ?_⟩
  intro r hr
  have hinv := holdsSamples_persistAll batches hs emptyStore
    ⟨List.Pairwise.nil, fun kv hkv => absurd hkv (List.not_mem_nil _)⟩
  simp only [BoltDataStore.GetSamples] at hr
  rcases mem_scanLoop _ _ _ _ hr with h | ⟨kv, hkv, hmax, hdec⟩
  · exact absurd h (List.not_mem_nil _)
  · have hmin := not_lt_of_mem_Seek _ hinv.1 _ kv hkv
    obtain ⟨s, hsid, hkey, henc⟩ := hinv.2 kv (mem_of_mem_Seek _ _ _ hkv)
    have hdec2 := GobDecode_of_GobEncode s Sample.zero kv.2 henc
    rw [hdec] at hdec2
    have hmin2 : bytesCompare
        (GenerateKey id BoltSampleKeySeparator fromT) kv.1 ≤ 0 := by
      rw [bytesCompare_swap kv.1]
      omega
    have hsep : BoltSampleKeySeparator = [35] := by decide
    simp only [GenerateKey, hsep] at hmin2 hmax
    have hpre := isPrefix_of_between (id ++ [35]) _ _ kv.1 hmin2 hmax
    rw [hkey] at hpre
    simp only [Sample.Key, GenerateKey, hsep, List.append_assoc, List.singleton_append] at hpre
    have hts : 35 ∉ s.Timestamp.UTC.FormatRFC3339Nano := fun hh => by
      have := le_of_mem_Format _ _ hh
      omega
    have := id_eq_of_isPrefix id s.DataSourceId _ hsid hts hpre
    rw [hdec2.2, this]

/-- C6 witness, scenario S2: after the samples `A` of `ds-A` and `B` of `ds-B`, taken at the
same instant, are persisted, `GetSamples("ds-A", t, t)` returns the sample `A` alone. -/
theorem C6_cross_source_isolation_witness :
    (∀ batch ∈ [s2Samples], ∀ s ∈ batch, 35 ∉ s.DataSourceId)
      ∧ (persistAll emptyStore [s2Samples]).GetSamples (str "ds-A") (jan1 0) (jan1 0)
          = ([{ Value := str "A", Timestamp := jan1 0, DataSourceId := str "ds-A",
                Err := none }], none)
      ∧ (((persistAll emptyStore [s2Samples]).GetSamples (str "ds-A") (jan1 0) (jan1 0)).2 = none
          ∧ ∀ r ∈ ((persistAll emptyStore [s2Samples]).GetSamples (str "ds-A") (jan1 0)
                (jan1 0)).1, r.DataSourceId = str "ds-A") :=
  ⟨by decide, by decide, C6_cross_source_isolation [s2Samples] (by decide) (str "ds-A")
    (jan1 0) (jan1 0)⟩

/-! ## Timeouts (C7) and the URL scraper (C8) -/

/-- C7 fails as stated: for the source `ds-A` the sample of a timeout carries the text
`Sample retrieval timed out.`, not `sample retrieval timed out`; and for a source whose `Id()`
is empty `NewSample` panics, so that `Distribute` is not called at all. -/
theorem C7_timeout_text_and_empty_id :
    RetrieveAndDistribute (str "ds-A") (.timeout (jan1 0))
        = .ok [{ Value := [], Timestamp := jan1 0, DataSourceId := str "ds-A",
                 Err := some (str "Sample retrieval timed out.") }]
      ∧ str "Sample retrieval timed out." ≠ str "sample retrieval timed out"
      ∧ RetrieveAndDistribute [] (.timeout (jan1 0))
        = .error (.message (str "A Sample must have a valid dataSourceId.")) :=
  ⟨rfl, by decide, rfl⟩

/-- C7 as amended: for a data source whose `Id()` is not empty, a timeout makes
`RetrieveAndDistribute` call `Distribute` once, with the sample of empty value, of the time the
timeout fired, of that id and of error text `Sample retrieval timed out.`; and a sample
received in time is handed to `Distribute` once and unchanged. -/
theorem C7_timeout_conversion (dsId : GoString) (h : dsId ≠ []) (now : Time) (s : Sample) :
    RetrieveAndDistribute dsId (.timeout now)
        = .ok [{ Value := [], Timestamp := now, DataSourceId := dsId,
                 Err := some (str "Sample retrieval timed out.") }]
      ∧ RetrieveAndDistribute dsId (.sample s) = .ok [s] := by
  have hl : dsId.length ≠ 0 := fun hh => h (List.length_eq_zero.mp hh)
  constructor
  · simp [RetrieveAndDistribute, NewSample, hl]
  · rfl

/-- C7 witness: the source `ds-A`, a timeout at 2020-01-01T00:00:00Z, and the first sample of
scenario S2 delivered in time. -/
theorem C7_timeout_conversion_witness :
    str "ds-A" ≠ []
      ∧ RetrieveAndDistribute (str "ds-A") (.timeout (jan1 0))
        = .ok [{ Value := [], Timestamp := jan1 0, DataSourceId := str "ds-A",
                 Err := some (str "Sample retrieval timed out.") }]
      ∧ RetrieveAndDistribute (str "ds-A")
          (.sample { Value := str "A", Timestamp := jan1 0, DataSourceId := str "ds-A",
                     Err := none })
        = .ok [{ Value := str "A", Timestamp := jan1 0, DataSourceId := str "ds-A",
                 Err := none }] :=
  ⟨by decide, C7_timeout_conversion (str "ds-A") (by decide) (jan1 0) _⟩

/-- C8, evaluated on the code. With no transformation script: a document in which the CSS path
selects no text makes `Retrieve` panic in the last `NewSample`, and a failed fetch makes it
panic on the nil document; nothing is sent in either case. With a script whose run fails and
whose result prints as `undefined`, the sample sent has the value `undefined` and no error. -/
theorem C8_retrieve_on_failures :
    (scraperA []).Retrieve { now := jan1 0, document := .ok [], jsDeclareErr := none,
                             jsErr := none, jsValueString := [] }
        = .error (.message (str "A Sample must have a valid value or a specified error."))
      ∧ (scraperA []).Retrieve { now := jan1 0, document := .error (str "no such host"),
                                 jsDeclareErr := none, jsErr := none, jsValueString := [] }
        = .error .nilDereference
      ∧ (scraperA (str "parseInt(value")).Retrieve
          { now := jan1 0, document := .ok (str "42"), jsDeclareErr := none,
            jsErr := some (str "SyntaxError"), jsValueString := str "undefined" }
        = .ok [{ Value := str "undefined", Timestamp := jan1 0, DataSourceId := str "ds-A",
                 Err := none }] :=
  ⟨rfl, rfl, rfl⟩

/-! ## The persist transaction (C9) and the flush tick (C10) -/

/-- The attempt for a sample after one more sample in front. -/
theorem attemptFor_cons {B V : Type} (encode : Sample → Except GoError V)
    (put : B → GoString → V → B × Option GoError) (b : B) (s0 : Sample) (pre : List Sample)
    (s : Sample) :
    attemptFor encode put b (s0 :: pre) s
      = attemptFor encode put (bucketAfter encode put b [s0]) pre s := by
  unfold attemptFor
  rw [bucketAfter_cons]

/-- One turn of the persist loop: the bucket moves on, the error held is kept or else becomes
the error of the attempt, and the attempt is added. -/
theorem persistLoop_cons {B V : Type} (encode : Sample → Except GoError V)
    (put : B → GoString → V → B × Option GoError) (s : Sample) (rest : List Sample) (b : B)
    (overallError : Option GoError) (done : List (PersistAttempt V)) :
    persistLoop encode put (s :: rest) b overallError done
      = persistLoop encode put rest (bucketAfter encode put b [s])
          (overallError.orElse (fun _ => (attemptFor encode put b [] s).err))
          (done ++ [attemptFor encode put b [] s]) := by
  cases hs : encode s with
  | error e =>
    rw [persistLoop_cons_error encode put s rest b overallError done e hs]
    simp only [bucketAfter, attemptFor, List.foldl_cons, List.foldl_nil, hs, PersistAttempt.err]
    cases overallError <;> rfl
  | ok v =>
    rw [persistLoop_cons_ok encode put s rest b overallError done v hs, firstError_step]
    simp only [bucketAfter, attemptFor, List.foldl_cons, List.foldl_nil, hs, PersistAttempt.err]

/-- An error held by the persist loop is the one it returns. -/
theorem persistLoop_of_some {B V : Type} (encode : Sample → Except GoError V)
    (put : B → GoString → V → B × Option GoError) (samples : List Sample) (b : B)
    (e : GoError) (done : List (PersistAttempt V)) :
    (persistLoop encode put samples b (some e) done).2.1 = some e := by
  induction samples generalizing b done with
  | nil => rfl
  | cons s rest ih =>
    rw [persistLoop_cons]
    exact ih _ _

/-- The attempt logged for a sample is the attempt due for it: its `Put` was made on the
bucket the earlier samples left and its error is what that `Put` returned. -/
theorem persistLoop_attempt {B V : Type} (encode : Sample → Except GoError V)
    (put : B → GoString → V → B × Option GoError) (pre : List Sample) (s : Sample)
    (post : List Sample) (b : B) (overallError : Option GoError)
    (done : List (PersistAttempt V)) :
    (persistLoop encode put (pre ++ s :: post) b overallError done).2.2[done.length + pre.length]?
      = some (attemptFor encode put b pre s) := by
  induction pre generalizing b overallError done with
  | nil =>
    rw [List.nil_append, persistLoop_cons]
    obtain ⟨added, h1, _⟩ := persistLoop_spec encode put post (bucketAfter encode put b [s])
      (overallError.orElse (fun _ => (attemptFor encode put b [] s).err))
      (done ++ [attemptFor encode put b [] s])
    rw [h1, List.append_assoc, List.length_nil, Nat.add_zero,
      List.getElem?_append_right (Nat.le_refl _), Nat.sub_self, List.singleton_append,
      List.getElem?_cons_zero]
  | cons p pre ih =>
    rw [List.cons_append, persistLoop_cons, attemptFor_cons]
    have := ih (bucketAfter encode put b [p])
      (overallError.orElse (fun _ => (attemptFor encode put b [] p).err))
      (done ++ [attemptFor encode put b [] p])
    simp only [List.length_append, List.length_singleton, List.length_cons] at this ⊢
    have e : done.length + (pre.length + 1) = done.length + 1 + pre.length := by omega
    rw [e]
    exact this

/-- What the persist loop returns when it starts without an error: nil exactly when no attempt
has an error, and otherwise the error of the first attempt that has one. -/
theorem persistLoop_first_error {B V : Type} (encode : Sample → Except GoError V)
    (put : B → GoString → V → B × Option GoError) (samples : List Sample) (b : B)
    (done : List (PersistAttempt V)) :
    ((persistLoop encode put samples b none done).2.1 = none
        ↔ ∀ pre s post, samples = pre ++ s :: post →
            (attemptFor encode put b pre s).err = none)
      ∧ ∀ e, (persistLoop encode put samples b none done).2.1 = some e
        ↔ ∃ pre s post, samples = pre ++ s :: post
            ∧ (∀ pre1 s1 post1, pre = pre1 ++ s1 :: post1 →
                (attemptFor encode put b pre1 s1).err = none)
            ∧ (attemptFor encode put b pre s).err = some e := by
  induction samples generalizing b done with
  | nil =>
    constructor
    · constructor
      · intro _ pre s post h
        exact absurd h (by simp)
      · intro _
        rfl
    · intro e
      constructor
      · intro h
        exact absurd h (by simp [persistLoop])
      · rintro ⟨pre, s, post, h, _⟩
        exact absurd h (by simp)
  | cons s0 rest ih =>
    rw [persistLoop_cons]
    cases h0 : (attemptFor encode put b [] s0).err with
    | some e1 =>
      simp only [Option.orElse]
      rw [persistLoop_of_some]
      constructor
      · constructor
        · intro h
          exact absurd h (by simp)
        · intro h
          have := h [] s0 rest rfl
          rw [h0] at this
          exact absurd this (by simp)
      · intro e
        constructor
        · intro h
          refine ⟨[], s0, rest, rfl, ?_, ?_⟩
          · intro pre1 s1 post1 hh
            exact absurd hh (by simp)
          · rw [h0, ← h]
        · rintro ⟨pre, s, post, hsplit, hearlier, herr⟩
          rcases List.cons_eq_append_iff.mp hsplit with ⟨hp, hq⟩ | ⟨pre2, hp, hq⟩
          · subst hp
            have hs : s0 = s := ((List.cons.inj hq).1).symm
            subst hs
            rw [h0] at herr
            exact herr
          · subst hp
            have := hearlier [] s0 pre2 rfl
            rw [h0] at this
            exact absurd this (by simp)
    | none =>
      simp only [Option.orElse]
      obtain ⟨ih1, ih2⟩ := ih (bucketAfter encode put b [s0])
        (done ++ [attemptFor encode put b [] s0])
      constructor
      · rw [ih1]
        constructor
        · intro h pre s post hsplit
          rcases List.cons_eq_append_iff.mp hsplit with ⟨hp, hq⟩ | ⟨pre2, hp, hq⟩
          · subst hp
            have hs : s0 = s := ((List.cons.inj hq).1).symm
            subst hs
            exact h0
          · subst hp
            rw [attemptFor_cons]
            exact h pre2 s post hq
        · intro h pre s post hsplit
          have := h (s0 :: pre) s post (by rw [hsplit]; rfl)
          rw [attemptFor_cons] at this
          exact this
      · intro e
        rw [ih2 e]
        constructor
        · rintro ⟨pre, s, post, hsplit, hearlier, herr⟩
          refine ⟨s0 :: pre, s, post, by rw [hsplit]; rfl, ?_, by rw [attemptFor_cons]; exact herr⟩
          intro pre1 s1 post1 hh
          rcases List.cons_eq_append_iff.mp hh with ⟨hp, hq⟩ | ⟨pre2, hp, hq⟩
          · subst hp
            have hs : s0 = s1 := ((List.cons.inj hq).1).symm
            subst hs
            exact h0
          · subst hp
            rw [attemptFor_cons]
            exact hearlier pre2 s1 post1 hq
        · rintro ⟨pre, s, post, hsplit, hearlier, herr⟩
          rcases List.cons_eq_append_iff.mp hsplit with ⟨hp, hq⟩ | ⟨pre2, hp, hq⟩
          · subst hp
            have hs : s0 = s := ((List.cons.inj hq).1).symm
            subst hs
            rw [h0] at herr
            exact absurd herr (by simp)
          · subst hp
            refine ⟨pre2, s, post, hq, ?_, by rw [attemptFor_cons] at herr; exact herr⟩
            intro pre1 s1 post1 hh
            have := hearlier (s0 :: pre1) s1 post1 (by rw [hh]; rfl)
            rw [attemptFor_cons] at this
            exact this

/-- An attempt is without error exactly when the sample encodes and `Put` returns nil. -/
theorem attemptFor_err_none_iff {B V : Type} (encode : Sample → Except GoError V)
    (put : B → GoString → V → B × Option GoError) (b : B) (pre : List Sample) (s : Sample) :
    (attemptFor encode put b pre s).err = none
      ↔ ∃ v, encode s = .ok v ∧ (put (bucketAfter encode put b pre) s.Key v).2 = none := by
  unfold attemptFor
  cases hs : encode s with
  | error e => simp [PersistAttempt.err]
  | ok v => simp [PersistAttempt.err]

/-- The error of an attempt is the error of the encode or the error that `Put` returns. -/
theorem attemptFor_err_some_iff {B V : Type} (encode : Sample → Except GoError V)
    (put : B → GoString → V → B × Option GoError) (b : B) (pre : List Sample) (s : Sample)
    (e : GoError) :
    (attemptFor encode put b pre s).err = some e
      ↔ encode s = .error e
        ∨ ∃ v, encode s = .ok v ∧ (put (bucketAfter encode put b pre) s.Key v).2 = some e := by
  unfold attemptFor
  cases hs : encode s with
  | error e1 => simp [PersistAttempt.err]
  | ok v => simp [PersistAttempt.err]

/-- The log of the transaction function: one attempt per sample in order, a `Put` exactly for
the samples that encode, the bucket after all of them, and the returned error as the first
error of the log. -/
theorem persistTx_log {B V : Type} (encode : Sample → Except GoError V)
    (put : B → GoString → V → B × Option GoError) (b : B) (samples : List Sample) :
    (persistTx encode put b samples).2.2.map PersistAttempt.sample = samples
      ∧ (∀ a ∈ (persistTx encode put b samples).2.2,
          (∀ e, encode a.sample = .error e → a = .encodeFailed a.sample e)
          ∧ (∀ v, encode a.sample = .ok v → ∃ err, a = .put a.sample a.sample.Key v err))
      ∧ (persistTx encode put b samples).1
          = samples.foldl (fun b s =>
              match encode s with
              | .ok v => (put b s.Key v).1
              | .error _ => b) b
      ∧ (persistTx encode put b samples).2.1
          = ((persistTx encode put b samples).2.2.filterMap PersistAttempt.err).head?
      ∧ ((persistTx encode put b samples).2.1 = none
          ↔ ∀ a ∈ (persistTx encode put b samples).2.2, a.err = none) := by
  obtain ⟨added, h1, h2, h3, h4, h5⟩ := persistLoop_spec encode put samples b none []
  simp only [List.nil_append] at h1
  simp only [persistTx, h1]
  refine ⟨h2, h3, h4, ?_, ?_⟩
  · simpa using h5
  · have h5a : (persistLoop encode put samples b none []).2.1
        = (added.filterMap PersistAttempt.err).head? := by simpa using h5
    rw [h5a]
    constructor
    · intro hnone a ha
      cases hae : a.err with
      | none => rfl
      | some e =>
        have hmem : e ∈ added.filterMap PersistAttempt.err :=
          List.mem_filterMap.mpr ⟨a, ha, hae⟩
        have hnil : added.filterMap PersistAttempt.err = [] := by
          cases hl : added.filterMap PersistAttempt.err with
          | nil => rfl
          | cons x xs => rw [hl] at hnone; simp at hnone
        rw [hnil] at hmem
        simp at hmem
    · intro hall
      have hnil : added.filterMap PersistAttempt.err = [] := by
        apply List.eq_nil_iff_forall_not_mem.mpr
        intro e he
        obtain ⟨a, ha, hae⟩ := List.mem_filterMap.mp he
        rw [hall a ha] at hae
        simp at hae
      rw [hnil]
      rfl

/-- C9: for every list of samples, every encoder and every `Put` (so for every pattern of
failures), the function that `PersistSamples` runs in the transaction makes one attempt per
sample, in list order; the attempt is a `Put` of the key and the bytes of the sample exactly
when the sample encodes, whatever failed before, so that the bucket has seen the `Put` of each
sample that encodes; and the function returns the first error among the attempts in list
order, which is nil if and only if no encode and no `Put` failed. The attempt logged for a
sample carries the error that `Put` returned on the bucket the earlier samples left; the
function returns nil if and only if every sample encodes and its `Put` returns nil; and it
returns the error `e` if and only if some sample, before which every sample encoded and was
`Put` with nil, fails to encode with `e` or is `Put` with `e`. -/
theorem C9_persist_attempts_all {B V : Type} (encode : Sample → Except GoError V)
    (put : B → GoString → V → B × Option GoError) (b : B) (samples : List Sample) :
    (persistTx encode put b samples).2.2.map PersistAttempt.sample = samples
      ∧ (∀ a ∈ (persistTx encode put b samples).2.2,
          (∀ e, encode a.sample = .error e → a = .encodeFailed a.sample e)
          ∧ (∀ v, encode a.sample = .ok v → ∃ err, a = .put a.sample a.sample.Key v err))
      ∧ (persistTx encode put b samples).1
          = samples.foldl (fun b s =>
              match encode s with
              | .ok v => (put b s.Key v).1
              | .error _ => b) b
      ∧ (persistTx encode put b samples).2.1
          = ((persistTx encode put b samples).2.2.filterMap PersistAttempt.err).head?
      ∧ ((persistTx encode put b samples).2.1 = none
          ↔ ∀ a ∈ (persistTx encode put b samples).2.2, a.err = none)
      ∧ (∀ pre s post, samples = pre ++ s :: post →
          (persistTx encode put b samples).2.2[pre.length]?
            = some (attemptFor encode put b pre s))
      ∧ ((persistTx encode put b samples).2.1 = none
          ↔ ∀ pre s post, samples = pre ++ s :: post →
              ∃ v, encode s = .ok v ∧ (put (bucketAfter encode put b pre) s.Key v).2 = none)
      ∧ ∀ e, (persistTx encode put b samples).2.1 = some e
          ↔ ∃ pre s post, samples = pre ++ s :: post
              ∧ (∀ pre1 s1 post1, pre = pre1 ++ s1 :: post1 →
                  ∃ v, encode s1 = .ok v
                    ∧ (put (bucketAfter encode put b pre1) s1.Key v).2 = none)
              ∧ (encode s = .error e
                  ∨ ∃ v, encode s = .ok v
                      ∧ (put (bucketAfter encode put b pre) s.Key v).2 = some e) := by
  obtain ⟨g1, g2, g3, g4, g5⟩ := persistTx_log encode put b samples
  obtain ⟨f1, f2⟩ := persistLoop_first_error encode put samples b []
  refine ⟨g1, g2, g3, g4, g5, ?_, ?_, ?_⟩
  · intro pre s post hsplit
    have := persistLoop_attempt encode put pre s post b none []
    rw [← hsplit] at this
    simpa [persistTx] using this
  · simp only [persistTx]
    rw [f1]
    constructor
    · intro h pre s post hsplit
      exact (attemptFor_err_none_iff encode put b pre s).mp (h pre s post hsplit)
    · intro h pre s post hsplit
      exact (attemptFor_err_none_iff encode put b pre s).mpr (h pre s post hsplit)
  · intro e
    simp only [persistTx]
    rw [f2 e]
    constructor
    · rintro ⟨pre, s, post, hsplit, hearlier, herr⟩
      exact ⟨pre, s, post, hsplit,
        fun pre1 s1 post1 hh =>
          (attemptFor_err_none_iff encode put b pre1 s1).mp (hearlier pre1 s1 post1 hh),
        (attemptFor_err_some_iff encode put b pre s e).mp herr⟩
    · rintro ⟨pre, s, post, hsplit, hearlier, herr⟩
      exact ⟨pre, s, post, hsplit,
        fun pre1 s1 post1 hh =>
          (attemptFor_err_none_iff encode put b pre1 s1).mpr (hearlier pre1 s1 post1 hh),
        (attemptFor_err_some_iff encode put b pre s e).mpr herr⟩

/-- C10: for every buffer and every data store, a flush tick calls `PersistSamples` once, with
the whole buffer in insertion order, hands the store on as that call leaves it, and leaves the
buffer empty, whether the call returned nil or an error; the error, if any, is printed and the
samples of the batch are not kept. -/
theorem C10_flush_empties_buffer {σ : Type} (ds : DataStore σ)
    (r : PersistentDataStoreReporter σ) :
    (r.onFlushTick ds).1.buffer = []
      ∧ (r.onFlushTick ds).2.persistCalls = [r.buffer]
      ∧ (r.onFlushTick ds).1.dataStore = (ds.PersistSamples r.dataStore r.buffer).1
      ∧ (r.onFlushTick ds).2.printed = (ds.PersistSamples r.dataStore r.buffer).2.toList
      ∧ (r.onFlushTick ds).2.responses = [] := by
  refine ⟨?_, ?_, ?_, ?_, ?_⟩ <;> simp [PersistentDataStoreReporter.onFlushTick]
  cases (ds.PersistSamples r.dataStore r.buffer).2 <;> rfl

/-! ## The registry as a map -/

theorem registryGet_nil (id : GoString) : registryGet [] id = none := rfl

theorem registryGet_cons (k : GoString) (j : Nat) (rest : List (GoString × Nat))
    (id : GoString) :
    registryGet ((k, j) :: rest) id = if k = id then some j else registryGet rest id := by
  by_cases h : k = id <;> simp [registryGet, List.find?_cons, h]

theorem registryGet_eq_none_iff (registry : List (GoString × Nat)) (id : GoString) :
    registryGet registry id = none ↔ id ∉ registry.map Prod.fst := by
  induction registry with
  | nil => simp [registryGet_nil]
  | cons e rest ih =>
    obtain ⟨k, j⟩ := e
    rw [registryGet_cons]
    by_cases h : k = id
    · simp [h]
    · have h2 : ¬ id = k := fun hh => h hh.symm
      simp [h, h2, ih]

theorem registrySet_length (registry : List (GoString × Nat)) (id : GoString) (job : Nat) :
    (registrySet registry id job).length
      = registry.length + (if registryGet registry id = none then 1 else 0) := by
  induction registry with
  | nil => simp [registrySet, registryGet_nil]
  | cons e rest ih =>
    obtain ⟨k, j⟩ := e
    rw [registryGet_cons]
    by_cases h : k = id
    · simp [registrySet, h]
    · simp [registrySet, h, ih]
      omega

theorem registrySet_keys (registry : List (GoString × Nat)) (id : GoString) (job : Nat) :
    (registrySet registry id job).map Prod.fst
      = if registryGet registry id = none then registry.map Prod.fst ++ [id]
        else registry.map Prod.fst := by
  induction registry with
  | nil => simp [registrySet, registryGet_nil]
  | cons e rest ih =>
    obtain ⟨k, j⟩ := e
    rw [registryGet_cons]
    by_cases h : k = id
    · simp [registrySet, h]
    · simp only [registrySet, h, if_false, List.map_cons, ih]
      split <;> simp

theorem registrySet_nodup (registry : List (GoString × Nat)) (id : GoString) (job : Nat)
    (h : (registry.map Prod.fst).Nodup) : ((registrySet registry id job).map Prod.fst).Nodup := by
  rw [registrySet_keys]
  split
  · rename_i hn
    have := (registryGet_eq_none_iff registry id).mp hn
    exact List.Nodup.append h (List.nodup_singleton id) (by
      intro x hx hx2
      rw [List.mem_singleton] at hx2
      exact this (hx2 ▸ hx))
  · exact h

theorem registryDelete_nodup (registry : List (GoString × Nat)) (id : GoString)
    (h : (registry.map Prod.fst).Nodup) : ((registryDelete registry id).map Prod.fst).Nodup := by
  unfold registryDelete
  exact (List.Nodup.sublist ((List.filter_sublist registry).map Prod.fst) h)

theorem registryDelete_of_not_mem (registry : List (GoString × Nat)) (id : GoString)
    (h : id ∉ registry.map Prod.fst) : registryDelete registry id = registry := by
  unfold registryDelete
  apply List.filter_eq_self.mpr
  intro e he
  have : e.1 ≠ id := fun hh => h (hh ▸ List.mem_map_of_mem Prod.fst he)
  simpa using this

theorem registryDelete_cons (k : GoString) (j : Nat) (rest : List (GoString × Nat))
    (id : GoString) :
    registryDelete ((k, j) :: rest) id
      = if k = id then registryDelete rest id else (k, j) :: registryDelete rest id := by
  by_cases h : k = id <;> simp [registryDelete, List.filter_cons, h]

theorem registryDelete_length (registry : List (GoString × Nat)) (id : GoString)
    (h : (registry.map Prod.fst).Nodup) :
    (registryDelete registry id).length + (if registryGet registry id = none then 0 else 1)
      = registry.length := by
  induction registry with
  | nil => simp [registryDelete, registryGet_nil]
  | cons e rest ih =>
    obtain ⟨k, j⟩ := e
    have hn : k ∉ rest.map Prod.fst ∧ (rest.map Prod.fst).Nodup := List.nodup_cons.mp h
    rw [registryGet_cons, registryDelete_cons]
    by_cases hk : k = id
    · subst hk
      rw [registryDelete_of_not_mem rest k hn.1]
      simp
    · have := ih hn.2
      simp only [hk, if_false, List.length_cons]
      omega

theorem registryGet_registryDelete (registry : List (GoString × Nat)) (jobId id : GoString) :
    registryGet (registryDelete registry jobId) id
      = if id = jobId then none else registryGet registry id := by
  induction registry with
  | nil => simp [registryDelete, registryGet_nil]
  | cons e rest ih =>
    obtain ⟨k, j⟩ := e
    rw [registryDelete_cons]
    by_cases hk : k = jobId
    · subst hk
      simp only [if_true, ih, registryGet_cons]
      by_cases h : id = k
      · simp [h]
      · have h2 : ¬ k = id := fun hh => h hh.symm
        simp [h, h2]
    · simp only [hk, if_false, registryGet_cons, ih]
      by_cases h : k = id
      · have h2 : ¬ id = jobId := fun hh => hk (h ▸ hh)
        simp [h, h2]
      · simp [h]

/-! ## The shutdown loop of the scheduler -/

theorem removeAllLoop_eq (entries : List (GoString × Nat)) (jobs : List SchedulerJob)
    (registry : List (GoString × Nat)) (overallErr : Option GoError) :
    removeAllLoop entries jobs registry overallErr
      = (entries.foldl (fun js e => stopAndKill js e.2) jobs,
         entries.foldl (fun r e => registryDelete r e.1) registry, overallErr) := by
  induction entries generalizing jobs registry overallErr with
  | nil => rfl
  | cons e rest ih =>
    obtain ⟨k, j⟩ := e
    simp only [removeAllLoop, waitResult, List.foldl_cons]
    rw [ih]
    simp

theorem foldl_registryDelete_eq_nil (entries registry : List (GoString × Nat))
    (h : ∀ e ∈ registry, e.1 ∈ entries.map Prod.fst) :
    entries.foldl (fun r e => registryDelete r e.1) registry = [] := by
  induction entries generalizing registry with
  | nil =>
    cases registry with
    | nil => rfl
    | cons e rest => exact absurd (h e (List.mem_cons_self _ _)) (by simp)
  | cons x rest ih =>
    simp only [List.foldl_cons]
    apply ih
    intro e he
    unfold registryDelete at he
    have he2 := List.mem_filter.mp he
    have hne : e.1 ≠ x.1 := by simpa using he2.2
    have := h e he2.1
    simp only [List.map_cons, List.mem_cons] at this
    rcases this with h1 | h1
    · exact absurd h1 hne
    · exact h1

theorem stopAndKill_length (jobs : List SchedulerJob) (job : Nat) :
    (stopAndKill jobs job).length = jobs.length := by
  simp [stopAndKill]

theorem stopAndKill_getElem? (jobs : List SchedulerJob) (job i : Nat) :
    (stopAndKill jobs job)[i]? = (jobs[i]?).map (fun j => if job = i then j.stopped else j) := by
  simp only [stopAndKill, List.getElem?_modify, SchedulerJob.stopped]
  rfl

theorem foldl_stopAndKill_length (entries : List (GoString × Nat)) (jobs : List SchedulerJob) :
    (entries.foldl (fun js e => stopAndKill js e.2) jobs).length = jobs.length := by
  induction entries generalizing jobs with
  | nil => rfl
  | cons e rest ih => rw [List.foldl_cons, ih, stopAndKill_length]

theorem foldl_stopAndKill_getElem? (entries : List (GoString × Nat)) (jobs : List SchedulerJob)
    (i : Nat) :
    (entries.foldl (fun js e => stopAndKill js e.2) jobs)[i]?
      = (jobs[i]?).map (fun j => if i ∈ entries.map Prod.snd then j.stopped else j) := by
  induction entries generalizing jobs with
  | nil => simp
  | cons e rest ih =>
    rw [List.foldl_cons, ih, stopAndKill_getElem?]
    cases hj : jobs[i]? with
    | none => rfl
    | some j =>
      simp only [Option.map_some', List.map_cons, List.mem_cons]
      by_cases h1 : e.2 = i
      · have h1b : i = e.2 := h1.symm
        by_cases h2 : i ∈ rest.map Prod.snd
        · simp [h1, h2, SchedulerJob.stopped]
        · simp [h1, h2, SchedulerJob.stopped]
      · have h1b : ¬ i = e.2 := fun hh => h1 hh.symm
        simp only [h1, h1b, if_false, false_or]

/-! ## One turn of the scheduler, by kind of request -/

theorem serve_add (ks : KasperbrettScheduler) (h : ks.isShutDown = false) (id : GoString)
    (interval : Int) (hi : 0 < interval) :
    ks.serve (.AddJobRequest id interval)
      = .ok ({ jobs := ks.jobs ++ [{ dataSourceId := id, tickerStopped := false,
                                      killed := false }],
               registry := registrySet ks.registry id ks.jobs.length, isShutDown := false },
             { errorChan := [], responseChan := [.jobId id], ran := true }) := by
  have hi2 : ¬ interval ≤ 0 := by omega
  simp [KasperbrettScheduler.serve, h, SchedulerRequest.Run, hi2,
    SchedulerRequest.IsShutDownRoutine]

theorem serve_getAll (ks : KasperbrettScheduler) (h : ks.isShutDown = false) :
    ∃ reply, ks.serve .GetAllJobsRequest = .ok (ks, reply) ∧ reply.ran = true := by
  obtain ⟨jobs, registry, sd⟩ := ks
  simp only at h
  subst h
  exact ⟨_, rfl, rfl⟩

theorem serve_remove (ks : KasperbrettScheduler) (h : ks.isShutDown = false) (id : GoString) :
    ks.serve (.RemoveJobRequest id)
      = match registryGet ks.registry id with
        | none => .ok (ks, { errorChan := [some (str "Job not available: " ++ id)],
                             responseChan := [.done true], ran := true })
        | some job =>
          .ok ({ jobs := stopAndKill ks.jobs job, registry := registryDelete ks.registry id,
                 isShutDown := false },
               { errorChan := [none], responseChan := [.done true], ran := true }) := by
  obtain ⟨jobs, registry, sd⟩ := ks
  simp only at h
  subst h
  simp only [KasperbrettScheduler.serve, SchedulerRequest.Run]
  cases hg : registryGet registry id <;> rfl

theorem serve_removeAll (ks : KasperbrettScheduler) (h : ks.isShutDown = false) :
    ks.serve .RemoveAllJobsRequest
      = .ok ({ jobs := ks.registry.foldl (fun js e => stopAndKill js e.2) ks.jobs,
               registry := [], isShutDown := true },
             { errorChan := [none], responseChan := [.done true], ran := true }) := by
  simp [KasperbrettScheduler.serve, h, SchedulerRequest.Run,
    SchedulerRequest.IsShutDownRoutine, removeAllLoop_eq,
    foldl_registryDelete_eq_nil ks.registry ks.registry
      (fun e he => List.mem_map_of_mem Prod.fst he)]

/-! ## Registry size along a run (C11) -/

theorem serveAll_cons (ks ks1 ks2 : KasperbrettScheduler) (req : SchedulerRequest)
    (rest : List SchedulerRequest) (reply : SchedulerReply) (replies : List SchedulerReply)
    (h1 : ks.serve req = .ok (ks1, reply)) (h2 : ks1.serveAll rest = .ok (ks2, replies)) :
    ks.serveAll (req :: rest) = .ok (ks2, reply :: replies) := by
  simp only [KasperbrettScheduler.serveAll, h1, h2]

theorem tally_cons (ks ks1 : KasperbrettScheduler) (req : SchedulerRequest)
    (rest : List SchedulerRequest) (reply : SchedulerReply)
    (h1 : ks.serve req = .ok (ks1, reply)) :
    tally ks (req :: rest) = tallyStep ks req (tally ks1 rest) := by
  simp only [tally, h1]

/-- The cardinality law from any state whose registry has one entry per id: no request
panics, and the size of the registry grows by the adds of new ids and shrinks by the cancels of
present ids and by what the shutdowns removed. -/
theorem registry_size_of_serveAll (reqs : List SchedulerRequest) (ks0 : KasperbrettScheduler)
    (hnd : (ks0.registry.map Prod.fst).Nodup) (hp : ∀ req ∈ reqs, req.tickerStarts = true) :
    ∃ ks replies, ks0.serveAll reqs = .ok (ks, replies)
      ∧ ks.registry.length + (tally ks0 reqs).cancelsOfPresent
          + (tally ks0 reqs).removedByShutdown
        = ks0.registry.length + (tally ks0 reqs).addsOfNewId := by
  induction reqs generalizing ks0 with
  | nil => exact ⟨ks0, [], rfl, by simp [tally]⟩
  | cons req rest ih =>
    have hrest : ∀ r ∈ rest, r.tickerStarts = true := fun r hr => hp r (List.mem_cons_of_mem _ hr)
    by_cases hsd : ks0.isShutDown = true
    · obtain ⟨ks, replies, h1, h2⟩ := ih ks0 hnd hrest
      have hs := serve_of_isShutDown ks0 hsd req
      refine ⟨ks, rejected :: replies, serveAll_cons _ _ _ _ _ _ _ hs h1, ?_⟩
      rw [tally_cons _ _ _ _ _ hs]
      simp only [tallyStep, hsd, if_true]
      exact h2
    · have hsd2 : ks0.isShutDown = false := by simpa using hsd
      cases req with
      | AddJobRequest id interval =>
        have hi : 0 < interval := by
          have := hp _ (List.mem_cons_self _ _)
          simpa [SchedulerRequest.tickerStarts] using this
        have hs := serve_add ks0 hsd2 id interval hi
        obtain ⟨ks, replies, h1, h2⟩ :=
          ih { jobs := ks0.jobs ++ [{ dataSourceId := id, tickerStopped := false,
                                      killed := false }],
               registry := registrySet ks0.registry id ks0.jobs.length, isShutDown := false }
            (registrySet_nodup ks0.registry id ks0.jobs.length hnd) hrest
        refine ⟨ks, _ :: replies, serveAll_cons _ _ _ _ _ _ _ hs h1, ?_⟩
        rw [tally_cons _ _ _ _ _ hs]
        simp only [tallyStep, hsd2, Bool.false_eq_true, if_false]
        simp only [registrySet_length] at h2
        omega
      | GetAllJobsRequest =>
        obtain ⟨reply, hs, _⟩ := serve_getAll ks0 hsd2
        obtain ⟨ks, replies, h1, h2⟩ := ih ks0 hnd hrest
        refine ⟨ks, _ :: replies, serveAll_cons _ _ _ _ _ _ _ hs h1, ?_⟩
        rw [tally_cons _ _ _ _ _ hs]
        simp only [tallyStep, hsd2, Bool.false_eq_true, if_false]
        exact h2
      | RemoveJobRequest id =>
        have hs := serve_remove ks0 hsd2 id
        cases hg : registryGet ks0.registry id with
        | none =>
          rw [hg] at hs
          obtain ⟨ks, replies, h1, h2⟩ := ih ks0 hnd hrest
          refine ⟨ks, _ :: replies, serveAll_cons _ _ _ _ _ _ _ hs h1, ?_⟩
          rw [tally_cons _ _ _ _ _ hs]
          simp only [tallyStep, hsd2, Bool.false_eq_true, if_false, hg, if_true]
          exact h2
        | some job =>
          rw [hg] at hs
          obtain ⟨ks, replies, h1, h2⟩ :=
            ih { jobs := stopAndKill ks0.jobs job, registry := registryDelete ks0.registry id,
                 isShutDown := false }
              (registryDelete_nodup ks0.registry id hnd) hrest
          refine ⟨ks, _ :: replies, serveAll_cons _ _ _ _ _ _ _ hs h1, ?_⟩
          rw [tally_cons _ _ _ _ _ hs]
          have hl := registryDelete_length ks0.registry id hnd
          rw [hg] at hl
          simp only [tallyStep, hsd2, Bool.false_eq_true, if_false, hg, reduceCtorEq] at hl ⊢
          have h3 : ks.registry.length
                + (tally { jobs := stopAndKill ks0.jobs job,
                           registry := registryDelete ks0.registry id,
                           isShutDown := false } rest).cancelsOfPresent
                + (tally { jobs := stopAndKill ks0.jobs job,
                           registry := registryDelete ks0.registry id,
                           isShutDown := false } rest).removedByShutdown
              = (registryDelete ks0.registry id).length
                + (tally { jobs := stopAndKill ks0.jobs job,
                           registry := registryDelete ks0.registry id,
                           isShutDown := false } rest).addsOfNewId := h2
          omega
      | RemoveAllJobsRequest =>
        have hs := serve_removeAll ks0 hsd2
        obtain ⟨ks, replies, h1, h2⟩ :=
          ih { jobs := ks0.registry.foldl (fun js e => stopAndKill js e.2) ks0.jobs,
               registry := [], isShutDown := true } List.nodup_nil hrest
        refine ⟨ks, _ :: replies, serveAll_cons _ _ _ _ _ _ _ hs h1, ?_⟩
        rw [tally_cons _ _ _ _ _ hs]
        simp only [tallyStep, hsd2, Bool.false_eq_true, if_false]
        simp only [List.length_nil] at h2
        omega

/-- C11 fails as stated: after two add requests for the source `ds-X` the registry has one
entry, where the claim counts two adds, no cancel and no shutdown; an add request that comes
after a shutdown is rejected and adds nothing; and an add request with the interval 0 makes
`time.NewTicker` panic in the actor. -/
theorem C11_second_add_replaces_entry :
    (∃ ks replies,
        NewKasperbrettScheduler.serveAll
            [.AddJobRequest (str "ds-X") ms50, .AddJobRequest (str "ds-X") ms50]
          = .ok (ks, replies)
        ∧ ks.registry.length = 1
        ∧ (tally NewKasperbrettScheduler
            [.AddJobRequest (str "ds-X") ms50, .AddJobRequest (str "ds-X") ms50]).addsRun = 2
        ∧ (tally NewKasperbrettScheduler
            [.AddJobRequest (str "ds-X") ms50, .AddJobRequest (str "ds-X") ms50]).cancelsOfPresent
            = 0
        ∧ (tally NewKasperbrettScheduler
            [.AddJobRequest (str "ds-X") ms50, .AddJobRequest (str "ds-X") ms50]).removedByShutdown
            = 0)
      ∧ (∃ ks replies,
        NewKasperbrettScheduler.serveAll
            [.RemoveAllJobsRequest, .AddJobRequest (str "ds-X") ms50]
          = .ok (ks, replies)
        ∧ ks.registry.length = 0
        ∧ replies = [{ errorChan := [none], responseChan := [.done true], ran := true },
                     rejected])
      ∧ NewKasperbrettScheduler.serveAll [.AddJobRequest (str "ds-X") 0]
        = .error (.message (str "non-positive interval for NewTicker")) :=
  ⟨⟨_, _, rfl, by decide, by decide, by decide, by decide⟩, ⟨_, _, rfl, by decide, by decide⟩,
    rfl⟩

/-- C11 as amended: for every finite sequence of requests whose add requests have a positive
interval, served from the empty registry, no request panics and the size of the registry at
the end equals the number of add requests run for an id that was not in the registry, minus
the number of cancel requests run for an id that was in it, minus the sum over the shutdown
requests run of the size of the registry just before; requests rejected after the shutdown
and add requests for an id already in the registry do not count. -/
theorem C11_registry_size (reqs : List SchedulerRequest)
    (h : ∀ req ∈ reqs, req.tickerStarts = true) :
    ∃ ks replies, NewKasperbrettScheduler.serveAll reqs = .ok (ks, replies)
      ∧ (ks.registry.length : Int)
        = ((tally NewKasperbrettScheduler reqs).addsOfNewId : Int)
          - (tally NewKasperbrettScheduler reqs).cancelsOfPresent
          - (tally NewKasperbrettScheduler reqs).removedByShutdown := by
  obtain ⟨ks, replies, h1, h2⟩ :=
    registry_size_of_serveAll reqs NewKasperbrettScheduler List.nodup_nil h
  refine ⟨ks, replies, h1, ?_⟩
  have h0 : NewKasperbrettScheduler.registry.length = 0 := rfl
  rw [h0] at h2
  omega

/-- C11 witness: adds of `ds-X` twice and of `ds-Y`, a cancel of each of `ds-X` and of the
absent `ds-Z`, a listing, a shutdown and a late add. -/
theorem C11_registry_size_witness :
    (∀ req ∈ [SchedulerRequest.AddJobRequest (str "ds-X") ms50,
              .AddJobRequest (str "ds-X") ms50, .AddJobRequest (str "ds-Y") ms50,
              .RemoveJobRequest (str "ds-X"), .RemoveJobRequest (str "ds-Z"),
              .GetAllJobsRequest, .RemoveAllJobsRequest, .AddJobRequest (str "ds-X") ms50],
        req.tickerStarts = true)
      ∧ ∃ ks replies, NewKasperbrettScheduler.serveAll
            [.AddJobRequest (str "ds-X") ms50,
              .AddJobRequest (str "ds-X") ms50, .AddJobRequest (str "ds-Y") ms50,
              .RemoveJobRequest (str "ds-X"), .RemoveJobRequest (str "ds-Z"),
              .GetAllJobsRequest, .RemoveAllJobsRequest, .AddJobRequest (str "ds-X") ms50]
            = .ok (ks, replies)
          ∧ (ks.registry.length : Int)
            = ((tally NewKasperbrettScheduler
                [.AddJobRequest (str "ds-X") ms50,
                  .AddJobRequest (str "ds-X") ms50, .AddJobRequest (str "ds-Y") ms50,
                  .RemoveJobRequest (str "ds-X"), .RemoveJobRequest (str "ds-Z"),
                  .GetAllJobsRequest, .RemoveAllJobsRequest,
                  .AddJobRequest (str "ds-X") ms50]).addsOfNewId : Int)
              - (tally NewKasperbrettScheduler
                [.AddJobRequest (str "ds-X") ms50,
                  .AddJobRequest (str "ds-X") ms50, .AddJobRequest (str "ds-Y") ms50,
                  .RemoveJobRequest (str "ds-X"), .RemoveJobRequest (str "ds-Z"),
                  .GetAllJobsRequest, .RemoveAllJobsRequest,
                  .AddJobRequest (str "ds-X") ms50]).cancelsOfPresent
              - (tally NewKasperbrettScheduler
                [.AddJobRequest (str "ds-X") ms50,
                  .AddJobRequest (str "ds-X") ms50, .AddJobRequest (str "ds-Y") ms50,
                  .RemoveJobRequest (str "ds-X"), .RemoveJobRequest (str "ds-Z"),
                  .GetAllJobsRequest, .RemoveAllJobsRequest,
                  .AddJobRequest (str "ds-X") ms50]).removedByShutdown :=
  ⟨by decide, C11_registry_size _ (by decide)⟩

/-! ## Cancel (C12) -/

/-- C12: for every registry, every list of jobs and every `jobId`. When `jobId` is not in the
registry, `RemoveJobRequest.Run` writes the error `Job not available: ` + `jobId` on the error
channel and `true` on the response channel and leaves the registry and every job as they
were. When the registry maps `jobId` to a job, it writes the result of the task, which is nil,
and `true`; afterwards `jobId` is not in the registry, every other id is mapped as before, the
ticker of that job is stopped and its task killed, and every other job is as it was. -/
theorem C12_cancel (jobs : List SchedulerJob) (registry : List (GoString × Nat))
    (jobId : GoString) :
    (registryGet registry jobId = none →
        (SchedulerRequest.RemoveJobRequest jobId).Run jobs registry
          = .ok (jobs, registry,
              { errorChan := [some (str "Job not available: " ++ jobId)],
                responseChan := [.done true], ran := true }))
      ∧ ∀ job, registryGet registry jobId = some job →
          ∃ jobs1 registry1,
            (SchedulerRequest.RemoveJobRequest jobId).Run jobs registry
              = .ok (jobs1, registry1,
                  { errorChan := [none], responseChan := [.done true], ran := true })
            ∧ registryGet registry1 jobId = none
            ∧ (∀ id, id ≠ jobId → registryGet registry1 id = registryGet registry id)
            ∧ registry1.Sublist registry
            ∧ jobs1.length = jobs.length
            ∧ jobs1[job]? = (jobs[job]?).map SchedulerJob.stopped
            ∧ ∀ i, i ≠ job → jobs1[i]? = jobs[i]? := by
  constructor
  · intro h
    simp only [SchedulerRequest.Run, h]
  · intro job h
    refine ⟨stopAndKill jobs job, registryDelete registry jobId, ?_, ?_, ?_, ?_, ?_, ?_, ?_⟩
    · simp only [SchedulerRequest.Run, h, waitResult]
    · simp [registryGet_registryDelete]
    · intro id hid
      simp [registryGet_registryDelete, hid]
    · exact List.filter_sublist registry
    · exact stopAndKill_length jobs job
    · rw [stopAndKill_getElem?]
      cases jobs[job]? <;> simp
    · intro i hi
      rw [stopAndKill_getElem?]
      have : ¬ job = i := fun hh => hi hh.symm
      cases jobs[i]? <;> simp [this]

/-- C12 witness, scenario S5 and its counterpart on the scheduler with the jobs `ds-X` and
`ds-Y`: the cancel of the absent `ds-Z` changes nothing, the cancel of `ds-X` removes its
entry and stops its job. -/
theorem C12_cancel_witness :
    registryGet twoJobs.registry (str "ds-Z") = none
      ∧ (SchedulerRequest.RemoveJobRequest (str "ds-Z")).Run twoJobs.jobs twoJobs.registry
          = .ok (twoJobs.jobs, twoJobs.registry,
              { errorChan := [some (str "Job not available: ds-Z")],
                responseChan := [.done true], ran := true })
      ∧ registryGet twoJobs.registry (str "ds-X") = some 0
      ∧ ∃ jobs1 registry1,
          (SchedulerRequest.RemoveJobRequest (str "ds-X")).Run twoJobs.jobs twoJobs.registry
            = .ok (jobs1, registry1,
                { errorChan := [none], responseChan := [.done true], ran := true })
          ∧ registryGet registry1 (str "ds-X") = none
          ∧ (∀ id, id ≠ str "ds-X" → registryGet registry1 id = registryGet twoJobs.registry id)
          ∧ registry1.Sublist twoJobs.registry
          ∧ jobs1.length = twoJobs.jobs.length
          ∧ jobs1[0]? = (twoJobs.jobs[0]?).map SchedulerJob.stopped
          ∧ ∀ i, i ≠ 0 → jobs1[i]? = twoJobs.jobs[i]? :=
  ⟨by decide, (C12_cancel twoJobs.jobs twoJobs.registry (str "ds-Z")).1 (by decide), by decide,
    (C12_cancel twoJobs.jobs twoJobs.registry (str "ds-X")).2 0 (by decide)⟩

/-! ## Live jobs of one source (C13) -/

/-- C13, evaluated on the code: after two add requests for the source `ds-X` the registry
refers to the second job only, and both jobs are live; a cancel of `ds-X` and a shutdown stop
the second job and leave the first one live. -/
theorem C13_two_live_jobs_of_one_source :
    ∃ ks replies,
      NewKasperbrettScheduler.serveAll
          [.AddJobRequest (str "ds-X") ms50, .AddJobRequest (str "ds-X") ms50]
        = .ok (ks, replies)
      ∧ ks.registry = [(str "ds-X", 1)]
      ∧ liveJobs ks.jobs (str "ds-X")
          = [{ dataSourceId := str "ds-X", tickerStopped := false, killed := false },
             { dataSourceId := str "ds-X", tickerStopped := false, killed := false }]
      ∧ ∃ ks2 replies2,
          ks.serveAll [.RemoveJobRequest (str "ds-X"), .RemoveAllJobsRequest]
            = .ok (ks2, replies2)
          ∧ ks2.jobs
            = [{ dataSourceId := str "ds-X", tickerStopped := false, killed := false },
               { dataSourceId := str "ds-X", tickerStopped := true, killed := true }]
          ∧ (liveJobs ks2.jobs (str "ds-X")).length = 1 :=
  ⟨_, _, rfl, by decide, by decide, _, _, rfl, by decide, by decide⟩

/-! ## Shutdown of the reporting engine (C14) -/

/-- What the shutdown loop of the engine returns: every reporter is shut down once, in order,
and the error is the one held at the start or else the first error of a reporter. -/
theorem shutDownLoop_spec {ρ : Type} (R : Reporter ρ) (reporters : List ρ)
    (overallErr : Option GoError) (after calls : List ρ) :
    shutDownLoop R reporters overallErr after calls
      = (after ++ reporters.map (fun r => (R.ShutDown r).1),
         overallErr.orElse (fun _ => (reporters.filterMap (fun r => (R.ShutDown r).2)).head?),
         calls ++ reporters) := by
  induction reporters generalizing overallErr after calls with
  | nil => cases overallErr <;> simp [shutDownLoop]
  | cons r rest ih =>
    simp only [shutDownLoop]
    rw [ih, firstError_step]
    cases overallErr <;> cases hr : (R.ShutDown r).2 <;> simp [hr]

/-- C14: for every list of registered reporters and whatever their `ShutDown` methods return,
the shutdown case of the engine calls `ShutDown` on each reporter once, in registration
order, also after a reporter has failed, and sends on the response channel the error of the
first reporter, in registration order, whose `ShutDown` failed; what it sends is nil if and
only if no `ShutDown` failed, and it is what `KasperbrettReportingEngine.ShutDown` returns. -/
theorem C14_engine_shutdown {ρ : Type} (R : Reporter ρ) (re : KasperbrettReportingEngine ρ) :
    (re.onShutDown R).2.shutDownCalls = re.reporters
      ∧ (re.onShutDown R).1.reporters = re.reporters.map (fun r => (R.ShutDown r).1)
      ∧ (re.onShutDown R).2.responses
          = [(re.reporters.filterMap (fun r => (R.ShutDown r).2)).head?]
      ∧ (re.ShutDown R).2 = (re.reporters.filterMap (fun r => (R.ShutDown r).2)).head?
      ∧ ((re.ShutDown R).2 = none ↔ ∀ r ∈ re.reporters, (R.ShutDown r).2 = none) := by
  have h := shutDownLoop_spec R re.reporters none [] []
  simp only [List.nil_append, Option.orElse] at h
  refine ⟨?_, ?_, ?_, ?_, ?_⟩
  · simp [KasperbrettReportingEngine.onShutDown, h]
  · simp [KasperbrettReportingEngine.onShutDown, h]
  · simp [KasperbrettReportingEngine.onShutDown, h]
  · simp [KasperbrettReportingEngine.ShutDown, KasperbrettReportingEngine.onShutDown, h]
  · simp only [KasperbrettReportingEngine.ShutDown, KasperbrettReportingEngine.onShutDown, h,
      List.headD_cons]
    constructor
    · intro hnone r hr
      cases hre : (R.ShutDown r).2 with
      | none => rfl
      | some e =>
        have hmem : e ∈ re.reporters.filterMap (fun r => (R.ShutDown r).2) :=
          List.mem_filterMap.mpr ⟨r, hr, hre⟩
        cases hl : re.reporters.filterMap (fun r => (R.ShutDown r).2) with
        | nil => rw [hl] at hmem; simp at hmem
        | cons x xs => rw [hl] at hnone; simp at hnone
    · intro hall
      have hnil : re.reporters.filterMap (fun r => (R.ShutDown r).2) = [] := by
        apply List.eq_nil_iff_forall_not_mem.mpr
        intro e he
        obtain ⟨r, hr, hre⟩ := List.mem_filterMap.mp he
        rw [hall r hr] at hre
        simp at hre
      rw [hnil]
      rfl

/-! ## Shutdown of the buffered reporter (C15) -/

/-- C15, evaluated on the code: for every data store and every buffer, `ShutDown` of the
reporter makes one call, `dataStore.ShutDown`, and neither stops the flush ticker nor calls
`PersistSamples`; the buffer is left as it was. With the two samples of scenario S2 in the
buffer and an empty Bolt store behind the reporter, the store is still empty when `ShutDown`
has returned nil. -/
theorem C15_shutdown_without_flush :
    (∀ (σ : Type) (ds : DataStore σ) (r : PersistentDataStoreReporter σ),
        (r.ShutDown ds).2.2 = [.dataStoreShutDown]
        ∧ (r.ShutDown ds).1.buffer = r.buffer
        ∧ (r.ShutDown ds).1.dataStore = (ds.ShutDown r.dataStore).1
        ∧ (r.ShutDown ds).2.1 = (ds.ShutDown r.dataStore).2)
      ∧ (PersistentDataStoreReporter.ShutDown boltDataStore
            { buffer := s2Samples, dataStore := emptyStore }).2.1 = none
      ∧ (PersistentDataStoreReporter.ShutDown boltDataStore
            { buffer := s2Samples, dataStore := emptyStore }).1.buffer = s2Samples
      ∧ (PersistentDataStoreReporter.ShutDown boltDataStore
            { buffer := s2Samples, dataStore := emptyStore }).1.dataStore.bucket = []
      ∧ ReporterCall.persistSamples s2Samples
          ∉ (PersistentDataStoreReporter.ShutDown boltDataStore
              { buffer := s2Samples, dataStore := emptyStore }).2.2 :=
  ⟨fun _ _ _ => ⟨rfl, rfl, rfl, rfl⟩, rfl, rfl, rfl, by decide⟩

/-! ## The shutdown of the scheduler is terminal (C16) -/

/-- C16: a running scheduler serves a shutdown request without panic, replies `true` on the
response channel and nil, the first error among the results of the tasks, on the error channel,
and is shut down afterwards with an empty registry; the jobs the registry referred to have
their ticker stopped and their task killed, the other jobs are as they were. Whatever requests
follow, the state stays the same, so `isShutDown` stays true and the registry stays empty.
And a running scheduler that serves a request of another kind is still running afterwards. -/
theorem C16_shutdown_is_terminal (ks : KasperbrettScheduler) (h : ks.isShutDown = false) :
    ∃ ks1, ks.serve .RemoveAllJobsRequest
        = .ok (ks1, { errorChan := [none], responseChan := [.done true], ran := true })
      ∧ ks1.isShutDown = true
      ∧ ks1.registry = []
      ∧ ks1.jobs.length = ks.jobs.length
      ∧ (∀ i, ks1.jobs[i]?
          = (ks.jobs[i]?).map (fun j => if i ∈ ks.registry.map Prod.snd then j.stopped else j))
      ∧ (∀ reqs, ks1.serveAll reqs = .ok (ks1, reqs.map (fun _ => rejected)))
      ∧ ∀ req ks2 reply, req ≠ .RemoveAllJobsRequest → ks.serve req = .ok (ks2, reply) →
          ks2.isShutDown = false := by
  refine ⟨_, serve_removeAll ks h, rfl, rfl, foldl_stopAndKill_length _ _,
    foldl_stopAndKill_getElem? _ _, serveAll_of_isShutDown _ rfl, ?_⟩
  intro req ks2 reply hreq hs
  cases req with
  | AddJobRequest id interval =>
    by_cases hi : 0 < interval
    · rw [serve_add ks h id interval hi] at hs
      injection hs with hs
      rw [← (Prod.mk.inj hs).1]
    · have hi2 : interval ≤ 0 := by omega
      simp [KasperbrettScheduler.serve, h, SchedulerRequest.Run, hi2] at hs
  | GetAllJobsRequest =>
    obtain ⟨reply2, hs2, _⟩ := serve_getAll ks h
    rw [hs2] at hs
    injection hs with hs
    rw [← (Prod.mk.inj hs).1]
    exact h
  | RemoveJobRequest id =>
    rw [serve_remove ks h id] at hs
    cases hg : registryGet ks.registry id with
    | none =>
      rw [hg] at hs
      injection hs with hs
      rw [← (Prod.mk.inj hs).1]
      exact h
    | some job =>
      rw [hg] at hs
      injection hs with hs
      rw [← (Prod.mk.inj hs).1]
  | RemoveAllJobsRequest => exact absurd rfl hreq

/-- C16 witness: the scheduler with the jobs `ds-X` and `ds-Y` is running; its shutdown stops
both jobs and empties the registry. -/
theorem C16_shutdown_is_terminal_witness :
    twoJobs.isShutDown = false
      ∧ twoJobs.serve .RemoveAllJobsRequest
        = .ok ({ jobs := [{ dataSourceId := str "ds-X", tickerStopped := true, killed := true },
                          { dataSourceId := str "ds-Y", tickerStopped := true, killed := true }],
                 registry := [], isShutDown := true },
               { errorChan := [none], responseChan := [.done true], ran := true })
      ∧ ∃ ks1, twoJobs.serve .RemoveAllJobsRequest
          = .ok (ks1, { errorChan := [none], responseChan := [.done true], ran := true })
        ∧ ks1.isShutDown = true
        ∧ ks1.registry = []
        ∧ ks1.jobs.length = twoJobs.jobs.length
        ∧ (∀ i, ks1.jobs[i]?
            = (twoJobs.jobs[i]?).map
                (fun j => if i ∈ twoJobs.registry.map Prod.snd then j.stopped else j))
        ∧ (∀ reqs, ks1.serveAll reqs = .ok (ks1, reqs.map (fun _ => rejected)))
        ∧ ∀ req ks2 reply, req ≠ .RemoveAllJobsRequest → twoJobs.serve req = .ok (ks2, reply) →
            ks2.isShutDown = false :=
  ⟨rfl, rfl, C16_shutdown_is_terminal twoJobs rfl⟩

/-! ## Calendar dates -/

set_option maxHeartbeats 4000000 in
/-- The year of the era computed from the day of the era is at most 399, begins on or before
that day, and the day is at most 365 days into it. -/
theorem civil_facts (doe : Nat) (h : doe < 146097) :
    (doe - doe / 1460 + doe / 36524 - doe / 146096) / 365 ≤ 399
    ∧ 365 * ((doe - doe / 1460 + doe / 36524 - doe / 146096) / 365)
        + ((doe - doe / 1460 + doe / 36524 - doe / 146096) / 365) / 4
        - ((doe - doe / 1460 + doe / 36524 - doe / 146096) / 365) / 100 ≤ doe
    ∧ doe - (365 * ((doe - doe / 1460 + doe / 36524 - doe / 146096) / 365)
        + ((doe - doe / 1460 + doe / 36524 - doe / 146096) / 365) / 4
        - ((doe - doe / 1460 + doe / 36524 - doe / 146096) / 365) / 100) ≤ 365 := by
  have hg : doe / 1460 ≤ 100 := by omega
  have hgl : 1460 * (doe / 1460) ≤ doe := Nat.mul_div_le doe 1460
  have hgu : doe < 1460 * (doe / 1460) + 1460 := by omega
  have he : doe / 36524 ≤ 4 := by omega
  have hel : 36524 * (doe / 36524) ≤ doe := Nat.mul_div_le doe 36524
  have heu : doe < 36524 * (doe / 36524) + 36524 := by omega
  have hf : doe / 146096 ≤ 1 := by omega
  have hfl : 146096 * (doe / 146096) ≤ doe := Nat.mul_div_le doe 146096
  have hfu : doe < 146096 * (doe / 146096) + 146096 := by omega
  generalize doe / 1460 = g at *
  generalize doe / 36524 = e at *
  generalize doe / 146096 = f at *
  interval_cases g <;> first
    | omega
    | (interval_cases e <;> first | omega | (interval_cases f <;> omega))

theorem civilFromDays_injective (a b : Int) (h : Time.civilFromDays a = Time.civilFromDays b) :
    a = b := by
  have fa := civil_facts ((a + 719468) % 146097).toNat (by omega)
  have fb := civil_facts ((b + 719468) % 146097).toNat (by omega)
  simp only [Time.civilFromDays, Prod.mk.injEq] at h
  obtain ⟨hy, hm, hd⟩ := h
  have ha1 : (((a + 719468) % 146097).toNat : Int) = (a + 719468) % 146097 :=
    Int.toNat_of_nonneg (by omega)
  have hb1 : (((b + 719468) % 146097).toNat : Int) = (b + 719468) % 146097 :=
    Int.toNat_of_nonneg (by omega)
  generalize ((a + 719468) % 146097).toNat = doeA at *
  generalize ((b + 719468) % 146097).toNat = doeB at *
  generalize (doeA - doeA / 1460 + doeA / 36524 - doeA / 146096) / 365 = yoeA at *
  generalize (doeB - doeB / 1460 + doeB / 36524 - doeB / 146096) / 365 = yoeB at *
  generalize hdoyA : doeA - (365 * yoeA + yoeA / 4 - yoeA / 100) = doyA at *
  generalize hdoyB : doeB - (365 * yoeB + yoeB / 4 - yoeB / 100) = doyB at *
  generalize hmpA : (5 * doyA + 2) / 153 = mpA at *
  generalize hmpB : (5 * doyB + 2) / 153 = mpB at *
  have hmp : mpA = mpB := by
    split_ifs at hm <;> omega
  subst hmp
  have hdoy : doyA = doyB := by omega
  subst hdoy
  have hyoe : yoeA = yoeB ∧ (a + 719468) / 146097 = (b + 719468) / 146097 := by
    split_ifs at hy <;> omega
  have hdoe : doeA = doeB := by
    rw [hyoe.1] at hdoyA fa
    omega
  have h1 := Int.ediv_add_emod (a + 719468) 146097
  have h2 := Int.ediv_add_emod (b + 719468) 146097
  rw [hyoe.2] at h1
  rw [← ha1] at h1
  rw [← hb1] at h2
  rw [hdoe] at h1
  omega


/-! ## Digits -/

theorem fixedDigits_length (width n : Nat) : (fixedDigits width n).length = width := by
  induction width generalizing n with
  | zero => rfl
  | succ w ih => simp [fixedDigits, ih]

theorem fixedDigits_zero (width : Nat) : fixedDigits width 0 = List.replicate width 48 := by
  induction width with
  | zero => rfl
  | succ w ih =>
    simp only [fixedDigits, Nat.zero_div, ih, digit, Nat.zero_mod, Nat.add_zero]
    exact (List.replicate_succ' w 48).symm

/-- Digit strings of one width are equal only for numbers with the same last digits. -/
theorem fixedDigits_inj (width a b : Nat) (h : fixedDigits width a = fixedDigits width b) :
    a % 10 ^ width = b % 10 ^ width := by
  induction width generalizing a b with
  | zero => simp [Nat.mod_one]
  | succ w ih =>
    simp only [fixedDigits] at h
    have h2 := List.append_inj' h rfl
    have hd : digit a = digit b := by simpa using h2.2
    have h10 : a % 10 = b % 10 := by
      unfold digit at hd
      omega
    have hrec := ih (a / 10) (b / 10) h2.1
    have e : 10 ^ (w + 1) = 10 * 10 ^ w := by rw [Nat.pow_succ, Nat.mul_comm]
    rw [e, Nat.mod_mul, Nat.mod_mul, h10, hrec]

/-- The digits of a number below `10 ^ (k + 1)`, padded with zeros to `k + 1` places, are its
`k + 1` fixed digits, when the fuel exceeds the number. -/
theorem natDigits_padded (k : Nat) : ∀ n fuel, n < 10 ^ (k + 1) → n < fuel →
    (natDigits fuel n).length ≤ k + 1
      ∧ List.replicate (k + 1 - (natDigits fuel n).length) 48 ++ natDigits fuel n
        = fixedDigits (k + 1) n := by
  induction k with
  | zero =>
    intro n fuel hn hf
    obtain ⟨f, rfl⟩ : ∃ f, fuel = f + 1 := ⟨fuel - 1, by omega⟩
    have hn10 : n < 10 := by simpa using hn
    simp [natDigits, hn10, fixedDigits]
  | succ k ih =>
    intro n fuel hn hf
    obtain ⟨f, rfl⟩ : ∃ f, fuel = f + 1 := ⟨fuel - 1, by omega⟩
    by_cases hn10 : n < 10
    · have hz : n / 10 = 0 := by omega
      simp only [natDigits, hn10, if_true, List.nil_append, List.length_singleton]
      refine ⟨by omega, ?_⟩
      rw [fixedDigits, hz, fixedDigits_zero]
      have : k + 1 + 1 - 1 = k + 1 := by omega
      rw [this]
    · have hlt : n / 10 < 10 ^ (k + 1) := by
        have e : 10 ^ (k + 1 + 1) = 10 * 10 ^ (k + 1) := by rw [Nat.pow_succ, Nat.mul_comm]
        rw [e] at hn
        omega
      obtain ⟨hl, heq⟩ := ih (n / 10) f hlt (by omega)
      simp only [natDigits, hn10, if_false, List.length_append, List.length_singleton]
      refine ⟨by omega, ?_⟩
      have : k + 1 + 1 - ((natDigits f (n / 10)).length + 1)
          = k + 1 - (natDigits f (n / 10)).length := by omega
      rw [this, ← List.append_assoc, heq]
      rfl

/-- A year from 0 to 9999 is printed with its four fixed digits. -/
theorem appendInt_four (x : Int) (h0 : 0 ≤ x) (h1 : x ≤ 9999) :
    appendInt x 4 = fixedDigits 4 x.natAbs := by
  have hx : ¬ x < 0 := by omega
  have hn : x.natAbs < 10 ^ (3 + 1) := by omega
  have := (natDigits_padded 3 x.natAbs (x.natAbs + 1) hn (by omega)).2
  simp only [appendInt, hx, if_false, List.nil_append]
  exact this

theorem dropZerosRev_spec (l : GoString) :
    l = List.replicate (l.length - (dropZerosRev l).length) 48 ++ dropZerosRev l := by
  induction l with
  | nil => rfl
  | cons c cs ih =>
    simp only [dropZerosRev]
    split
    · rename_i hc
      have hle : (dropZerosRev cs).length ≤ cs.length := by
        have := congrArg List.length ih
        simp only [List.length_append, List.length_replicate] at this
        omega
      have e : (c :: cs).length - (dropZerosRev cs).length
          = (cs.length - (dropZerosRev cs).length) + 1 := by
        simp only [List.length_cons]
        omega
      rw [e, List.replicate_succ, List.cons_append, ← ih, hc]
    · simp

/-- The fraction printed for a nanosecond determines the nanosecond. -/
theorem formatNano_inj (a b : Nat) (ha : a < 1000000000) (hb : b < 1000000000)
    (h : formatNano a = formatNano b) : a = b := by
  have key : ∀ n, fixedDigits 9 n
      = (dropZerosRev (fixedDigits 9 n).reverse).reverse
        ++ List.replicate (9 - (dropZerosRev (fixedDigits 9 n).reverse).reverse.length) 48 := by
    intro n
    have h1 := dropZerosRev_spec (fixedDigits 9 n).reverse
    have h2 := congrArg List.reverse h1
    simp only [List.reverse_reverse, List.reverse_append, List.reverse_replicate,
      List.length_reverse, fixedDigits_length] at h2
    simpa using h2
  have ht : (dropZerosRev (fixedDigits 9 a).reverse).reverse
      = (dropZerosRev (fixedDigits 9 b).reverse).reverse := by
    simp only [formatNano] at h
    split at h <;> split at h
    · rename_i h1 h2
      rw [h1, h2]
    · simp at h
    · simp at h
    · exact (List.cons.inj h).2
  have hf : fixedDigits 9 a = fixedDigits 9 b := by
    rw [key a, key b, ht]
  have := fixedDigits_inj 9 a b hf
  omega


/-! ## A formatted time determines the instant -/

/-- Month and day of a calendar date have at most two digits. -/
theorem civilFromDays_bounds (days : Int) :
    (Time.civilFromDays days).2.1 < 100 ∧ (Time.civilFromDays days).2.2 < 100 := by
  have f := civil_facts ((days + 719468) % 146097).toNat (by omega)
  simp only [Time.civilFromDays]
  generalize ((days + 719468) % 146097).toNat = doe at *
  generalize (doe - doe / 1460 + doe / 36524 - doe / 146096) / 365 = yoe at *
  generalize doe - (365 * yoe + yoe / 4 - yoe / 100) = doy at *
  generalize hmp : (5 * doy + 2) / 153 = mp at *
  constructor
  · split_ifs <;> omega
  · omega

/-- Two times in UTC with years from 0 to 9999 that are formatted alike are the same
instant. -/
theorem Format_inj (t u : Time) (ht : t.offset = 0) (hu : u.offset = 0)
    (hyt : 0 ≤ t.Year ∧ t.Year ≤ 9999) (hyu : 0 ≤ u.Year ∧ u.Year ≤ 9999)
    (h : t.FormatRFC3339Nano = u.FormatRFC3339Nano) : t.unixNano = u.unixNano := by
  simp only [Time.FormatRFC3339Nano, appendInt_four _ hyt.1 hyt.2, appendInt_four _ hyu.1 hyu.2,
    List.append_assoc, ht, hu] at h
  obtain ⟨hY, h⟩ := List.append_inj h (by simp [fixedDigits_length])
  simp only [List.singleton_append, List.cons.injEq, true_and] at h
  obtain ⟨hM, h⟩ := List.append_inj h (by simp [fixedDigits_length])
  simp only [List.singleton_append, List.cons.injEq, true_and] at h
  obtain ⟨hD, h⟩ := List.append_inj h (by simp [fixedDigits_length])
  simp only [List.singleton_append, List.cons.injEq, true_and] at h
  obtain ⟨hH, h⟩ := List.append_inj h (by simp [fixedDigits_length])
  simp only [List.singleton_append, List.cons.injEq, true_and] at h
  obtain ⟨hMi, h⟩ := List.append_inj h (by simp [fixedDigits_length])
  simp only [List.singleton_append, List.cons.injEq, true_and] at h
  obtain ⟨hS, h⟩ := List.append_inj h (by simp [fixedDigits_length])
  have hN := List.append_cancel_right h
  have hY2 := fixedDigits_inj 4 _ _ hY
  have hM2 := fixedDigits_inj 2 _ _ hM
  have hD2 := fixedDigits_inj 2 _ _ hD
  have hH2 := fixedDigits_inj 2 _ _ hH
  have hMi2 := fixedDigits_inj 2 _ _ hMi
  have hS2 := fixedDigits_inj 2 _ _ hS
  have hnt : t.Nanosecond < 1000000000 := by unfold Time.Nanosecond; omega
  have hnu : u.Nanosecond < 1000000000 := by unfold Time.Nanosecond; omega
  have hN2 := formatNano_inj _ _ hnt hnu hN
  have hbt := civilFromDays_bounds t.wallDays
  have hbu := civilFromDays_bounds u.wallDays
  have hYear : t.Year = u.Year := by omega
  have hMonth : t.Month = u.Month := by
    unfold Time.Month at hM2 ⊢
    omega
  have hDay : t.Day = u.Day := by
    unfold Time.Day at hD2 ⊢
    omega
  have hdays : t.wallDays = u.wallDays := by
    apply civilFromDays_injective
    unfold Time.Year at hYear
    unfold Time.Month at hMonth
    unfold Time.Day at hDay
    exact Prod.ext hYear (Prod.ext hMonth hDay)
  simp only [Time.Hour, Time.Minute, Time.Second, Time.secOfDay, Time.wallDays, Time.wallSec,
    Time.unixSec, Time.Nanosecond, ht, hu] at hH2 hMi2 hS2 hN2 hdays
  omega


/-! ## Key injectivity (C17) -/

/-- Two keys are equal only if the parts before and after the first `#` are. -/
theorem key_split (id1 id2 f1 f2 : GoString) (h1 : 35 ∉ id1) (h2 : 35 ∉ id2)
    (h : id1 ++ 35 :: f1 = id2 ++ 35 :: f2) : id1 = id2 ∧ f1 = f2 := by
  induction id1 generalizing id2 with
  | nil =>
    cases id2 with
    | nil => exact ⟨rfl, (List.cons.inj h).2⟩
    | cons c cs =>
      have hc : 35 = c := (List.cons.inj h).1
      exact absurd (hc ▸ List.mem_cons_self _ _) h2
  | cons x xs ih =>
    cases id2 with
    | nil =>
      have hc : x = 35 := (List.cons.inj h).1
      exact absurd (hc ▸ List.mem_cons_self _ _) h1
    | cons c cs =>
      have hh := List.cons.inj h
      have := ih cs (fun hm => h1 (List.mem_cons_of_mem _ hm))
        (fun hm => h2 (List.mem_cons_of_mem _ hm)) hh.2
      exact ⟨by rw [hh.1, this.1], this.2⟩

/-- C17: for source ids without `#` (byte 35) and timestamps whose year in UTC is from 0 to
9999, in whatever time zones, `GenerateKey(id1, "#", t1)` equals `GenerateKey(id2, "#", t2)`
if and only if `id1 == id2` and the timestamps are the same instant to the nanosecond; hence
the keys of two samples, under which `PersistSamples` puts them, are equal only for the same
source id and the same instant. -/
theorem C17_key_injective (id1 id2 : GoString) (t1 t2 : Time) (h1 : 35 ∉ id1) (h2 : 35 ∉ id2)
    (hy1 : 0 ≤ t1.UTC.Year ∧ t1.UTC.Year ≤ 9999) (hy2 : 0 ≤ t2.UTC.Year ∧ t2.UTC.Year ≤ 9999) :
    (GenerateKey id1 (str "#") t1 = GenerateKey id2 (str "#") t2
        ↔ id1 = id2 ∧ t1.unixNano = t2.unixNano)
      ∧ ∀ v1 v2 e1 e2,
          Sample.Key { Value := v1, Timestamp := t1, DataSourceId := id1, Err := e1 }
              = Sample.Key { Value := v2, Timestamp := t2, DataSourceId := id2, Err := e2 }
            ↔ id1 = id2 ∧ t1.unixNano = t2.unixNano := by
  have hsep : str "#" = [35] := by decide
  have main : GenerateKey id1 (str "#") t1 = GenerateKey id2 (str "#") t2
      ↔ id1 = id2 ∧ t1.unixNano = t2.unixNano := by
    constructor
    · intro h
      simp only [GenerateKey, hsep, List.append_assoc, List.singleton_append] at h
      obtain ⟨hid, hf⟩ := key_split _ _ _ _ h1 h2 h
      exact ⟨hid, Format_inj t1.UTC t2.UTC rfl rfl hy1 hy2 hf⟩
    · rintro ⟨hid, hn⟩
      have : t1.UTC = t2.UTC := by
        simp only [Time.UTC, hn]
      rw [GenerateKey, GenerateKey, hid, this]
  exact ⟨main, fun _ _ _ _ => main⟩

/-- C17 witness: the source `ds-A` at 2020-01-01T00:00:00Z, once in UTC and once in a zone one
hour east, has one key. -/
theorem C17_key_injective_witness :
    35 ∉ str "ds-A"
      ∧ (0 ≤ (jan1 0).UTC.Year ∧ (jan1 0).UTC.Year ≤ 9999)
      ∧ (0 ≤ ({ unixNano := 1577836800000000000, offset := 3600 } : Time).UTC.Year
          ∧ ({ unixNano := 1577836800000000000, offset := 3600 } : Time).UTC.Year ≤ 9999)
      ∧ GenerateKey (str "ds-A") (str "#") (jan1 0)
          = GenerateKey (str "ds-A") (str "#") { unixNano := 1577836800000000000, offset := 3600 } :=
  ⟨by decide, by decide, by decide,
    ((C17_key_injective (str "ds-A") (str "ds-A") (jan1 0)
      { unixNano := 1577836800000000000, offset := 3600 } (by decide) (by decide) (by decide)
      (by decide)).1).mpr ⟨rfl, rfl⟩⟩

end Kasperbrett
